import Mathlib

/-!
# snake-ncurses: the game state and its per-tick update

A shallow embedding of `src/snake.c` (`init_game`, `is_tick`, `game_score`, `step`)
and theorems about it.

Modelling conventions
* C `int`/`long` values are `Int`.  Every quantity is bounded by the number of cells of
  the terminal, so no arithmetic here comes near the 32-bit range.
* C `/` and `%` truncate toward zero: `Int.tdiv` and `Int.tmod`.
* `game->field` is a `List Int` whose length is the number of allocated cells.
* A function returns `none` where the C program has no defined behaviour: a field access
  outside the allocation, or `%` with a zero divisor.
* The environment is passed in: the terminal size read by `getmaxyx`, the clock value
  read by `clock_gettime`, and the number returned by `rand()` (a `Nat`, since `rand()`
  is never negative).
-/

namespace Snake

/-! ## Data model -/

/-- The `enum direction` of the source. -/
inductive direction where
  | Up
  | Down
  | Left
  | Right
  deriving DecidableEq, Repr

/-- The `enum gamestate` of the source. -/
inductive gamestate where
  | GameRunning
  | GameOver
  deriving DecidableEq, Repr

/-- The `struct timespec` of the C library. -/
structure timespec where
  tv_sec : Int
  tv_nsec : Int
  deriving DecidableEq, Repr

/-- The `Options` struct of the source. -/
structure Options where
  difficulty : Int
  deriving DecidableEq, Repr

/-- The `Game` struct of the source. -/
structure Game where
  size_x : Int
  size_y : Int
  initial_snake_len : Int
  snake_len : Int
  snake_pos : Int
  food_pos : Int
  move : direction
  tick_msec : Int
  prev_tick : timespec
  field : List Int
  deriving DecidableEq, Repr

open direction gamestate

/-! ## Field accesses -/

/-- The read `field[p]`; `none` outside the allocation. -/
def readField (field : List Int) (p : Int) : Option Int :=
  if 0 ≤ p then field[p.toNat]? else none

/-- The write `field[p] = v`; `none` outside the allocation. -/
def writeField (field : List Int) (p : Int) (v : Int) : Option (List Int) :=
  if 0 ≤ p ∧ p.toNat < field.length then some (field.set p.toNat v) else none

/-! ## init_game -/

/-- The table `difficulty_msecs` of `init_game`. -/
def difficulty_msecs : List Int :=
  [300, 210, 180, 150, 130, 120, 100, 80, 60, 40, 30, 20]

/-- The seeding loop of `init_game`,
`for (c = snake_len, p = snake_pos; c > 0; --c, ++p) field[p] = c;`.
The first argument bounds the iterations left; it is started at `c`. -/
def seed_loop : Nat → Int → Int → List Int → Option (List Int)
  | 0, _, _, field => some field
  | n + 1, c, p, field =>
    if c > 0 then
      match writeField field p c with
      | none => none
      | some field1 => seed_loop n (c - 1) (p + 1) field1
    else some field

/-- The function `init_game`.  `max_y`, `max_x` are what `getmaxyx` reports and `now`
is what `clock_gettime` reports.  A negative cell count makes the allocation fail. -/
def init_game (opts : Options) (max_y max_x : Int) (now : timespec) : Option Game :=
  let size_x := max_x - 2
  let size_y := max_y - 2
  let snake_len := min 10 size_x
  let snake_pos := Int.tdiv size_y 2 * size_x + (Int.tdiv size_x 2 - Int.tdiv snake_len 2)
  let food_pos := max 0 (snake_pos - 1)
  match difficulty_msecs[(max 0 (min 11 opts.difficulty)).toNat]? with
  | none => none
  | some tick_msec =>
    if size_x * size_y < 0 then none
    else
      match seed_loop snake_len.toNat snake_len snake_pos
          (List.replicate (size_x * size_y).toNat 0) with
      | none => none
      | some field =>
        some
          { size_x := size_x
            size_y := size_y
            initial_snake_len := snake_len
            snake_len := snake_len
            snake_pos := snake_pos
            food_pos := food_pos
            move := Left
            tick_msec := tick_msec
            prev_tick := now
            field := field }

/-! ## is_tick and game_score -/

/-- The function `is_tick`; `now` is what `clock_gettime` reports.  Returns the C result
(`true` for 1) and the game after the call. -/
def is_tick (game : Game) (now : timespec) : Bool × Game :=
  let sec_diff := now.tv_sec - game.prev_tick.tv_sec
  let msec_diff :=
    if sec_diff > 0 then
      (sec_diff - 1) * 1000
        + Int.tdiv (now.tv_nsec + (999999999 - game.prev_tick.tv_nsec)) 1000000
    else Int.tdiv (now.tv_nsec - game.prev_tick.tv_nsec) 1000000
  if msec_diff > game.tick_msec then (true, { game with prev_tick := now })
  else (false, game)

/-- The function `game_score`. -/
def game_score (game : Game) : Int :=
  game.snake_len - game.initial_snake_len - 1

/-! ## step -/

/-- The `switch` of `step`: `none` where `%` divides by zero, `some none` where the
function returns `GameOver` at a border, `some (some p)` with the moved head `p`. -/
def step_switch (game : Game) (field_size : Int) : Option (Option Int) :=
  match game.move with
  | Up =>
    if game.snake_pos - game.size_x < 0 then some none
    else some (some (game.snake_pos - game.size_x))
  | Left =>
    if game.size_x = 0 then none
    else if Int.tmod game.snake_pos game.size_x = 0 then some none
    else some (some (game.snake_pos - 1))
  | Down =>
    if game.snake_pos + game.size_x ≥ field_size then some none
    else some (some (game.snake_pos + game.size_x))
  | Right =>
    if game.size_x = 0 then none
    else if Int.tmod (game.snake_pos + 1) game.size_x = 0 then some none
    else some (some (game.snake_pos + 1))

/-- The food loop of `step`,
`for (p = 0; p < field_size; ++p) if (field[p] == 0) if (r-- == 0) { food_pos = p; break; }`.
The first argument bounds the iterations left; the result is `food_pos` after the loop. -/
def food_loop (field : List Int) (field_size : Int) : Nat → Int → Int → Int → Option Int
  | 0, _, _, food_pos => some food_pos
  | n + 1, p, r, food_pos =>
    if p < field_size then
      match readField field p with
      | none => none
      | some v =>
        if v = 0 then
          if r = 0 then some p
          else food_loop field field_size n (p + 1) (r - 1) food_pos
        else food_loop field field_size n (p + 1) r food_pos
    else some food_pos

/-- The decay loop of `step`,
`for (p = 0; p < field_size; ++p) if (field[p] > 0) --field[p];`.
The first argument bounds the iterations left. -/
def decay_loop (field_size : Int) : Nat → Int → List Int → Option (List Int)
  | 0, _, field => some field
  | n + 1, p, field =>
    if p < field_size then
      match readField field p with
      | none => none
      | some v =>
        if v > 0 then
          match writeField field p (v - 1) with
          | none => none
          | some field1 => decay_loop field_size n (p + 1) field1
        else decay_loop field_size n (p + 1) field
    else some field

/-- The function `step`; `rnd` is what `rand()` returns if it is called. -/
def step (game : Game) (rnd : Nat) : Option (gamestate × Game) :=
  let field_size := game.size_x * game.size_y
  match step_switch game field_size with
  | none => none
  | some none => some (GameOver, game)
  | some (some pos) =>
    let game1 := { game with snake_pos := pos }
    match readField game1.field game1.snake_pos with
    | none => none
    | some v =>
      if v > 0 then some (GameOver, game1)
      else
        match writeField game1.field game1.snake_pos game1.snake_len with
        | none => none
        | some field1 =>
          let game2 := { game1 with field := field1 }
          if game2.snake_pos = game2.food_pos then
            let game3 := { game2 with snake_len := game2.snake_len + 1 }
            if field_size - game3.snake_len = 0 then none
            else
              let r := Int.tmod (rnd : Int) (field_size - game3.snake_len)
              match food_loop game3.field field_size field_size.toNat 0 r game3.food_pos with
              | none => none
              | some food_pos => some (GameRunning, { game3 with food_pos := food_pos })
          else
            match decay_loop field_size field_size.toNat 0 game2.field with
            | none => none
            | some field2 => some (GameRunning, { game2 with field := field2 })

/-- The direction latch of `run`: `game->move = d`. -/
def latch (game : Game) (d : direction) : Game :=
  { game with move := d }

/-! ## Vocabulary of the statements -/

/-- The cell the head is about to enter: one cell from `snake_pos` in the latched
direction (Up `-size_x`, Down `+size_x`, Left `-1`, Right `+1`). -/
def candidate (g : Game) : Int :=
  match g.move with
  | Up => g.snake_pos - g.size_x
  | Down => g.snake_pos + g.size_x
  | Left => g.snake_pos - 1
  | Right => g.snake_pos + 1

/-- The head is on the border it is about to cross: row 0 going Up, the last row going
Down, column 0 going Left, the last column going Right. -/
def at_border (g : Game) : Prop :=
  match g.move with
  | Up => g.snake_pos < g.size_x
  | Down => g.size_x * (g.size_y - 1) ≤ g.snake_pos
  | Left => g.snake_pos % g.size_x = 0
  | Right => (g.snake_pos + 1) % g.size_x = 0

/-- A game whose grid has at least one cell, whose field has one entry per cell and
whose head is on the grid. -/
structure WellFormed (g : Game) : Prop where
  size_x_pos : 1 ≤ g.size_x
  size_y_pos : 1 ≤ g.size_y
  field_len : (g.field.length : Int) = g.size_x * g.size_y
  pos_lo : 0 ≤ g.snake_pos
  pos_hi : g.snake_pos < g.size_x * g.size_y

/-- What the decay loop does to one cell. -/
def decay_cell (v : Int) : Int :=
  if v > 0 then v - 1 else v

/-- Number of cells with value `> 0`. -/
def positives (field : List Int) : Nat :=
  field.countP fun x => decide (0 < x)

/-- Number of cells with value `≥ v`. -/
def countGe (v : Int) (field : List Int) : Nat :=
  field.countP fun x => decide (v ≤ x)

/-- Number of cells with value `0` among the first `k` cells. -/
def zerosBefore (field : List Int) (k : Nat) : Nat :=
  (field.take k).countP fun x => decide (x = 0)

instance (g : Game) : Decidable (at_border g) := by
  unfold at_border
  cases g.move <;> exact inferInstance

/-- The states of a run on a grid of at least one cell: `Reach n g` says that `g` is
reached from `init_game` after `n` calls of `step` that returned `GameRunning`, with
any key presses (`latch`) and any polls of `is_tick` in between. -/
inductive Reach : Nat → Game → Prop where
  | init (opts : Options) (max_y max_x : Int) (now : timespec) (g : Game) :
      1 ≤ max_x - 2 → 1 ≤ max_y - 2 → init_game opts max_y max_x now = some g → Reach 0 g
  | latch (n : Nat) (g : Game) (d : direction) : Reach n g → Reach n (latch g d)
  | tick (n : Nat) (g : Game) (now : timespec) : Reach n g → Reach n (is_tick g now).2
  | step (n : Nat) (g g' : Game) (rnd : Nat) :
      Reach n g → step g rnd = some (GameRunning, g') → Reach (n + 1) g'

/-- A state the program can be in between two calls of `step`. -/
def Reachable (g : Game) : Prop :=
  ∃ n, Reach n g

/-- The initial game on a 3 x 3 grid (a 5 x 5 terminal). -/
def grid3 : Game :=
  { size_x := 3
    size_y := 3
    initial_snake_len := 3
    snake_len := 3
    snake_pos := 3
    food_pos := 2
    move := Left
    tick_msec := 120
    prev_tick := ⟨0, 0⟩
    field := [0, 0, 0, 3, 2, 1, 0, 0, 0] }

/-- The initial game on a 2 x 2 grid (a 4 x 4 terminal). -/
def grid2 : Game :=
  { size_x := 2
    size_y := 2
    initial_snake_len := 2
    snake_len := 2
    snake_pos := 2
    food_pos := 1
    move := Left
    tick_msec := 120
    prev_tick := ⟨0, 0⟩
    field := [0, 0, 2, 1] }

/-- The 2 x 2 game after the steps Up and Right: three cells taken, the food on the last
empty cell, right below the head. -/
def grid2_last : Game :=
  { grid2 with
    snake_len := 3
    snake_pos := 1
    food_pos := 3
    move := Right
    field := [1, 2, 1, 0] }

/-- The 3 x 3 game after the step Up. -/
def grid3_one : Game :=
  { grid3 with
    snake_pos := 0
    move := Up
    field := [2, 0, 0, 2, 1, 0, 0, 0, 0] }

/-- The 3 x 3 game after the steps Up, Right. -/
def grid3_two : Game :=
  { grid3 with
    snake_pos := 1
    move := Right
    field := [1, 2, 0, 1, 0, 0, 0, 0, 0] }

/-- The 3 x 3 game after the steps Up, Right, Down. -/
def grid3_three : Game :=
  { grid3 with
    snake_pos := 4
    move := Down
    field := [0, 1, 0, 0, 2, 0, 0, 0, 0] }

/-- The 3 x 3 game after the steps Up, Right, Right, the last one eating the food at
cell 2 with `rand()` returning 7. -/
def grid3_ate : Game :=
  { grid3 with
    snake_len := 4
    snake_pos := 2
    food_pos := 6
    move := Right
    field := [1, 2, 3, 1, 0, 0, 0, 0, 0] }

/-- The 2 x 2 game after the step Up. -/
def grid2_one : Game :=
  { grid2 with
    snake_pos := 0
    move := Up
    field := [1, 0, 1, 0] }

/-- A 3 x 3 game with the food right above the head. -/
def grid3_food : Game :=
  { grid3 with food_pos := 0 }

/-- The list `[k, k-1, ..., 1]`. -/
def desc : Nat → List Int
  | 0 => []
  | k + 1 => ((k + 1 : Nat) : Int) :: desc k

/-- The invariant of the running game. -/
structure Inv (g : Game) : Prop where
  wf : WellFormed g
  len_pos : 1 ≤ g.snake_len
  nonneg : ∀ v ∈ g.field, 0 ≤ v
  le_len : ∀ v ∈ g.field, v ≤ g.snake_len
  upper : ∀ v : Int, 1 ≤ v → v ≤ g.snake_len →
    (countGe v g.field : Int) + v ≤ g.snake_len + 1
  lower : ∀ v : Int, 1 ≤ v → v ≤ g.snake_len →
    g.snake_len ≤ (countGe v g.field : Int) + v
  present : ∀ v : Int, 1 ≤ v → v < g.snake_len → v ∈ g.field
  room : g.snake_len < g.size_x * g.size_y ∨ ∀ v ∈ g.field, 0 < v

/-- The value of the local `msec_diff` of `is_tick` at its test, for the stored
`prev_tick` and the clock reading `now`. -/
def msec_diff (prev now : timespec) : Int :=
  let sec_diff := now.tv_sec - prev.tv_sec
  if sec_diff > 0 then
    (sec_diff - 1) * 1000 + Int.tdiv (now.tv_nsec + (999999999 - prev.tv_nsec)) 1000000
  else Int.tdiv (now.tv_nsec - prev.tv_nsec) 1000000

/-- A `timespec` as the clock delivers it: `0 ≤ tv_nsec < 10^9`. -/
abbrev normalized (t : timespec) : Prop :=
  0 ≤ t.tv_nsec ∧ t.tv_nsec < 1000000000

/-- The time from `prev` to `now` in nanoseconds. -/
def elapsed_nsec (prev now : timespec) : Int :=
  (now.tv_sec - prev.tv_sec) * 1000000000 + (now.tv_nsec - prev.tv_nsec)

/-- The table lookup of `init_game`, `difficulty_msecs[max(0, min(11, d))]`. -/
def interval (d : Int) : Option Int :=
  difficulty_msecs[(max 0 (min 11 d)).toNat]?

/-- The initial game on a grid 3 cells wide and 8 cells high (a terminal of 10 rows and
5 columns): length 3, head at cell 12. -/
def grid3x8 : Game :=
  { size_x := 3
    size_y := 8
    initial_snake_len := 3
    snake_len := 3
    snake_pos := 12
    food_pos := 11
    move := Left
    tick_msec := 120
    prev_tick := ⟨0, 0⟩
    field := [0, 0, 0, 0, 0, 0, 0, 0, 0, 0, 0, 0, 3, 2, 1, 0, 0, 0, 0, 0, 0, 0, 0, 0] }

/-- The initial game on a grid 10 cells wide and 1 cell high (a terminal of 3 rows and
12 columns): the snake fills the row and the food index is clamped to the head cell. -/
def grid10x1 : Game :=
  { size_x := 10
    size_y := 1
    initial_snake_len := 10
    snake_len := 10
    snake_pos := 0
    food_pos := 0
    move := Left
    tick_msec := 120
    prev_tick := ⟨0, 0⟩
    field := [10, 9, 8, 7, 6, 5, 4, 3, 2, 1] }

/-- Number of cells with value `0`. -/
def zeros (field : List Int) : Nat :=
  field.countP fun x => decide (x = 0)

/-- A game on a single row with the head in cell 0 and either a single column or a body
cell right of the head: no move can succeed. -/
def Stuck (g : Game) : Prop :=
  g.size_y = 1 ∧ g.snake_pos = 0 ∧ (g.size_x = 1 ∨ ∃ v, g.field[1]? = some v ∧ 0 < v)

/-- Runs with the food counted: `RunAte k g` says that `g` is reached from `init_game`
on a grid of at least one cell by calls of `step` of which exactly `k` returned
`GameRunning` with the head on the food; the other calls returned `GameRunning` without
eating or returned `GameOver`. -/
inductive RunAte : Nat → Game → Prop where
  | init (opts : Options) (max_y max_x : Int) (now : timespec) (g : Game) :
      1 ≤ max_x - 2 → 1 ≤ max_y - 2 → init_game opts max_y max_x now = some g → RunAte 0 g
  | latch (k : Nat) (g : Game) (d : direction) : RunAte k g → RunAte k (latch g d)
  | tick (k : Nat) (g : Game) (now : timespec) : RunAte k g → RunAte k (is_tick g now).2
  | plain (k : Nat) (g g' : Game) (rnd : Nat) :
      RunAte k g → step g rnd = some (GameRunning, g') → g'.snake_pos ≠ g.food_pos →
      RunAte k g'
  | eat (k : Nat) (g g' : Game) (rnd : Nat) :
      RunAte k g → step g rnd = some (GameRunning, g') → g'.snake_pos = g.food_pos →
      RunAte (k + 1) g'
  | over (k : Nat) (g g' : Game) (rnd : Nat) :
      RunAte k g → step g rnd = some (GameOver, g') → RunAte k g'

/-! ## Lemmas on field accesses -/

theorem readField_append (pre rest : List Int) (v : Int) :
    readField (pre ++ v :: rest) (pre.length : Int) = some v := by
  have h : (pre ++ v :: rest)[pre.length]? = some v := by
    rw [List.getElem?_append_right (Nat.le_refl _)]
    simp
  simpa [readField] using h

theorem writeField_append (pre rest : List Int) (v w : Int) :
    writeField (pre ++ v :: rest) (pre.length : Int) w = some (pre ++ w :: rest) := by
  simp [writeField, List.set_append_right]

theorem readField_inb (field : List Int) (p : Int) (h0 : 0 ≤ p)
    (h1 : p < (field.length : Int)) :
    ∃ v, readField field p = some v ∧ field[p.toNat]? = some v ∧ v ∈ field := by
  have hlt : p.toNat < field.length := by omega
  refine ⟨field[p.toNat], ?_, ?_, List.getElem_mem _⟩
  · simp [readField, h0, List.getElem?_eq_getElem hlt]
  · exact List.getElem?_eq_getElem hlt

theorem writeField_inb (field : List Int) (p v : Int) (h0 : 0 ≤ p)
    (h1 : p < (field.length : Int)) :
    writeField field p v = some (field.set p.toNat v) := by
  have hlt : p.toNat < field.length := by omega
  simp [writeField, h0, hlt]

/-! ## The loops of step in closed form -/

theorem decay_loop_append (field_size : Int) :
    ∀ (rest pre : List Int), field_size = (pre.length : Int) + (rest.length : Int) →
      decay_loop field_size rest.length (pre.length : Int) (pre ++ rest)
        = some (pre ++ rest.map decay_cell) := by
  intro rest
  induction rest with
  | nil => intro pre _; simp [decay_loop]
  | cons v rest ih =>
    intro pre hsz
    have hlt : (pre.length : Int) < field_size := by
      simp only [List.length_cons] at hsz; omega
    have hnext : field_size = ((pre ++ [decay_cell v]).length : Int) + (rest.length : Int) := by
      simp only [List.length_cons, List.length_append, List.length_nil] at hsz ⊢; omega
    have key := ih (pre ++ [decay_cell v]) hnext
    simp only [List.length_append, List.length_cons, List.length_nil, Nat.cast_add,
      Nat.cast_one, Nat.zero_add, List.append_assoc, List.singleton_append] at key
    simp only [List.length_cons, decay_loop, hlt, if_true, readField_append,
      writeField_append, List.map_cons]
    by_cases hv : v > 0
    · simp only [hv, if_true]
      have hd : decay_cell v = v - 1 := by simp [decay_cell, hv]
      rw [hd] at key
      rw [hd]
      exact key
    · simp only [hv, if_false]
      have hd : decay_cell v = v := by simp [decay_cell, hv]
      rw [hd] at key
      rw [hd]
      exact key

theorem decay_loop_eq (field : List Int) (field_size : Int)
    (h : (field.length : Int) = field_size) :
    decay_loop field_size field_size.toNat 0 field = some (field.map decay_cell) := by
  have key := decay_loop_append field_size field [] (by simp [h])
  have hn : field_size.toNat = field.length := by omega
  simpa [hn] using key

theorem food_loop_total (field_size food_pos : Int) :
    ∀ (rest pre : List Int) (r : Int), field_size = (pre.length : Int) + (rest.length : Int) →
      ∃ fp, food_loop (pre ++ rest) field_size rest.length (pre.length : Int) r food_pos
        = some fp := by
  intro rest
  induction rest with
  | nil => intro pre r _; exact ⟨food_pos, by simp [food_loop]⟩
  | cons v rest ih =>
    intro pre r hsz
    have hlt : (pre.length : Int) < field_size := by
      simp only [List.length_cons] at hsz; omega
    have hnext : field_size = ((pre ++ [v]).length : Int) + (rest.length : Int) := by
      simp only [List.length_cons, List.length_append, List.length_nil] at hsz ⊢; omega
    have key := fun r => ih (pre ++ [v]) r hnext
    simp only [List.length_append, List.length_cons, List.length_nil, Nat.cast_add,
      Nat.cast_one, Nat.zero_add, List.append_assoc, List.singleton_append] at key
    simp only [List.length_cons, food_loop, hlt, if_true, readField_append]
    by_cases hv : v = 0
    · by_cases hr : r = 0
      · exact ⟨(pre.length : Int), by simp [hv, hr]⟩
      · simp only [hv, hr, if_true, if_false]
        have := key (r - 1)
        rw [hv] at this
        exact this
    · simp only [hv, if_false]
      exact key r

theorem food_loop_found (field_size food_pos : Int) :
    ∀ (rest pre : List Int) (r : Int), field_size = (pre.length : Int) + (rest.length : Int) →
      0 ≤ r → r < ((rest.countP fun x => decide (x = 0) : Nat) : Int) →
      ∃ q : Nat,
        food_loop (pre ++ rest) field_size rest.length (pre.length : Int) r food_pos
          = some (q : Int)
        ∧ (pre ++ rest)[q]? = some 0
        ∧ (zerosBefore (pre ++ rest) q : Int)
          = ((pre.countP fun x => decide (x = 0) : Nat) : Int) + r := by
  intro rest
  induction rest with
  | nil => intro pre r _ h0 h1; simp at h1; omega
  | cons v rest ih =>
    intro pre r hsz h0 h1
    have hlt : (pre.length : Int) < field_size := by
      simp only [List.length_cons] at hsz; omega
    have hnext : field_size = ((pre ++ [v]).length : Int) + (rest.length : Int) := by
      simp only [List.length_cons, List.length_append, List.length_nil] at hsz ⊢; omega
    have key := fun r => ih (pre ++ [v]) r hnext
    simp only [List.length_append, List.length_cons, List.length_nil, Nat.cast_add,
      Nat.cast_one, Nat.zero_add, List.append_assoc, List.singleton_append,
      List.countP_append, List.countP_cons, List.countP_nil] at key
    simp only [List.length_cons, food_loop, hlt, if_true, readField_append]
    simp only [List.countP_cons] at h1
    by_cases hv : v = 0
    · subst hv
      simp only [decide_True, if_true, Nat.cast_add, Nat.cast_one] at h1 key
      by_cases hr : r = 0
      · subst hr
        refine ⟨pre.length, by simp, ?_, ?_⟩
        · rw [List.getElem?_append_right (Nat.le_refl _)]; simp
        · simp [zerosBefore]
      · simp only [hr, if_false, if_true]
        obtain ⟨q, h1q, h2q, h3q⟩ := key (r - 1) (by omega) (by omega)
        exact ⟨q, h1q, h2q, by omega⟩
    · simp only [hv, decide_False, if_false] at h1 key ⊢
      simp only [Bool.false_eq_true, if_false, Nat.add_zero, Nat.cast_add, Nat.cast_zero,
        add_zero] at h1 key
      exact key r h0 h1

theorem food_loop_found_all (field : List Int) (field_size food_pos r : Int)
    (h : (field.length : Int) = field_size) (h0 : 0 ≤ r)
    (h1 : r < ((field.countP fun x => decide (x = 0) : Nat) : Int)) :
    ∃ q : Nat, food_loop field field_size field_size.toNat 0 r food_pos = some (q : Int)
      ∧ field[q]? = some 0 ∧ (zerosBefore field q : Int) = r := by
  obtain ⟨q, h1q, h2q, h3q⟩ :=
    food_loop_found field_size food_pos field [] r (by simp [h]) h0 h1
  have hn : field_size.toNat = field.length := by omega
  refine ⟨q, ?_, ?_, ?_⟩
  · simpa [hn] using h1q
  · simpa using h2q
  · simpa using h3q

theorem food_loop_total_all (field : List Int) (field_size food_pos r : Int)
    (h : (field.length : Int) = field_size) :
    ∃ fp, food_loop field field_size field_size.toNat 0 r food_pos = some fp := by
  obtain ⟨fp, hfp⟩ := food_loop_total field_size food_pos field [] r (by simp [h])
  have hn : field_size.toNat = field.length := by omega
  exact ⟨fp, by simpa [hn] using hfp⟩

/-! ## The border check -/

theorem step_switch_border (g : Game) (hx : 1 ≤ g.size_x) (h0 : 0 ≤ g.snake_pos)
    (hb : at_border g) : step_switch g (g.size_x * g.size_y) = some none := by
  have hmul : g.size_x * (g.size_y - 1) = g.size_x * g.size_y - g.size_x := by ring
  have hne : g.size_x ≠ 0 := by omega
  unfold at_border at hb
  unfold step_switch
  cases hm : g.move <;> simp only [hm] at hb ⊢
  · rw [if_pos (by omega)]
  · rw [if_pos (by omega)]
  · rw [if_neg hne, Int.tmod_eq_emod h0 (by omega), if_pos hb]
  · rw [if_neg hne, Int.tmod_eq_emod (by omega) (by omega), if_pos hb]

theorem step_switch_free (g : Game) (h : WellFormed g) (hb : ¬ at_border g) :
    step_switch g (g.size_x * g.size_y) = some (some (candidate g))
      ∧ 0 ≤ candidate g ∧ candidate g < g.size_x * g.size_y := by
  obtain ⟨hx, hy, _, h0, h1⟩ := h
  have hmul : g.size_x * (g.size_y - 1) = g.size_x * g.size_y - g.size_x := by ring
  have hne : g.size_x ≠ 0 := by omega
  unfold at_border at hb
  unfold step_switch candidate
  cases hm : g.move <;> simp only [hm] at hb ⊢
  · rw [if_neg (by omega)]
    exact ⟨rfl, by omega, by omega⟩
  · rw [if_neg (by omega)]
    exact ⟨rfl, by omega, by omega⟩
  · rw [if_neg hne, Int.tmod_eq_emod h0 (by omega), if_neg hb]
    refine ⟨rfl, ?_, by omega⟩
    by_contra hc
    have hz : g.snake_pos = 0 := by omega
    exact hb (by simp [hz])
  · rw [if_neg hne, Int.tmod_eq_emod (by omega) (by omega), if_neg hb]
    refine ⟨rfl, by omega, ?_⟩
    by_contra hc
    have hz : g.snake_pos + 1 = g.size_x * g.size_y := by omega
    exact hb (by rw [hz]; exact Int.mul_emod_right _ _)

/-! ## What step does, case by case -/

theorem step_of_border (g : Game) (rnd : Nat) (hx : 1 ≤ g.size_x) (h0 : 0 ≤ g.snake_pos)
    (hb : at_border g) : step g rnd = some (GameOver, g) := by
  simp [step, step_switch_border g hx h0 hb]

theorem step_of_body (g : Game) (rnd : Nat) (h : WellFormed g) (hb : ¬ at_border g)
    (v : Int) (hr : readField g.field (candidate g) = some v) (hv : 0 < v) :
    step g rnd = some (GameOver, { g with snake_pos := candidate g }) := by
  simp [step, (step_switch_free g h hb).1, hr, hv]

theorem step_of_plain (g : Game) (rnd : Nat) (h : WellFormed g) (hb : ¬ at_border g)
    (v : Int) (hr : readField g.field (candidate g) = some v) (hv : v ≤ 0)
    (hf : candidate g ≠ g.food_pos) :
    step g rnd = some (GameRunning,
      { g with
        snake_pos := candidate g
        field := (g.field.set (candidate g).toNat g.snake_len).map decay_cell }) := by
  obtain ⟨hsw, hc0, hc1⟩ := step_switch_free g h hb
  have hw := writeField_inb g.field (candidate g) g.snake_len hc0 (by rw [h.field_len]; exact hc1)
  have hd := decay_loop_eq (g.field.set (candidate g).toNat g.snake_len)
    (g.size_x * g.size_y) (by rw [List.length_set]; exact h.field_len)
  have hv2 : ¬ (0 < v) := by omega
  simp [step, hsw, hr, hv2, hw, hf, hd]

theorem step_of_eat (g : Game) (rnd : Nat) (h : WellFormed g) (hb : ¬ at_border g)
    (v : Int) (hr : readField g.field (candidate g) = some v) (hv : v ≤ 0)
    (hf : candidate g = g.food_pos) (hroom : g.size_x * g.size_y ≠ g.snake_len + 1) :
    ∃ fp,
      food_loop (g.field.set (candidate g).toNat g.snake_len) (g.size_x * g.size_y)
          (g.size_x * g.size_y).toNat 0
          (Int.tmod (rnd : Int) (g.size_x * g.size_y - (g.snake_len + 1))) g.food_pos
        = some fp
      ∧ step g rnd = some (GameRunning,
        { g with
          snake_pos := candidate g
          field := g.field.set (candidate g).toNat g.snake_len
          snake_len := g.snake_len + 1
          food_pos := fp }) := by
  obtain ⟨hsw, hc0, hc1⟩ := step_switch_free g h hb
  have hw := writeField_inb g.field (candidate g) g.snake_len hc0 (by rw [h.field_len]; exact hc1)
  obtain ⟨fp, hfp⟩ := food_loop_total_all (g.field.set (candidate g).toNat g.snake_len)
    (g.size_x * g.size_y) g.food_pos
    (Int.tmod (rnd : Int) (g.size_x * g.size_y - (g.snake_len + 1)))
    (by rw [List.length_set]; exact h.field_len)
  have hv2 : ¬ (0 < v) := by omega
  have hroom2 : ¬ (g.size_x * g.size_y - (g.snake_len + 1) = 0) := by omega
  refine ⟨fp, hfp, ?_⟩
  rw [hf] at hr hw hfp
  simp [step, hsw, hr, hv2, hw, hf, hroom2, hfp]

theorem step_of_full (g : Game) (rnd : Nat) (h : WellFormed g) (hb : ¬ at_border g)
    (v : Int) (hr : readField g.field (candidate g) = some v) (hv : v ≤ 0)
    (hf : candidate g = g.food_pos) (hroom : g.size_x * g.size_y = g.snake_len + 1) :
    step g rnd = none := by
  obtain ⟨hsw, hc0, hc1⟩ := step_switch_free g h hb
  have hw := writeField_inb g.field (candidate g) g.snake_len hc0 (by rw [h.field_len]; exact hc1)
  have hv2 : ¬ (0 < v) := by omega
  have hroom2 : g.size_x * g.size_y - (g.snake_len + 1) = 0 := by omega
  rw [hf] at hr hw
  simp [step, hsw, hr, hv2, hw, hf, hroom2]

theorem step_running_inv (g g' : Game) (rnd : Nat)
    (h : step g rnd = some (GameRunning, g')) :
    ∃ pos v field1,
      step_switch g (g.size_x * g.size_y) = some (some pos)
      ∧ readField g.field pos = some v ∧ v ≤ 0
      ∧ writeField g.field pos g.snake_len = some field1
      ∧ ((pos ≠ g.food_pos
          ∧ ∃ field2,
              decay_loop (g.size_x * g.size_y) (g.size_x * g.size_y).toNat 0 field1
                = some field2
              ∧ g' = { g with snake_pos := pos, field := field2 })
        ∨ (pos = g.food_pos ∧ g.size_x * g.size_y ≠ g.snake_len + 1
          ∧ ∃ fp,
              food_loop field1 (g.size_x * g.size_y) (g.size_x * g.size_y).toNat 0
                  (Int.tmod (rnd : Int) (g.size_x * g.size_y - (g.snake_len + 1)))
                  g.food_pos = some fp
              ∧ g' = { g with
                        snake_pos := pos
                        field := field1
                        snake_len := g.snake_len + 1
                        food_pos := fp })) := by
  unfold step at h
  simp only at h
  split at h
  · exact absurd h (by simp)
  · exact absurd h (by simp)
  · rename_i pos hsw
    split at h
    · exact absurd h (by simp)
    · rename_i v hr
      split at h
      · exact absurd h (by simp)
      · rename_i hv
        split at h
        · exact absurd h (by simp)
        · rename_i field1 hw
          refine ⟨pos, v, field1, hsw, hr, by omega, hw, ?_⟩
          split at h
          · rename_i hf
            split at h
            · exact absurd h (by simp)
            · rename_i hroom
              split at h
              · exact absurd h (by simp)
              · rename_i fp hfp
                right
                refine ⟨hf, by omega, fp, hfp, ?_⟩
                simp only [Option.some.injEq, Prod.mk.injEq, true_and] at h
                exact h.symm
          · rename_i hf
            split at h
            · exact absurd h (by simp)
            · rename_i field2 hd
              left
              refine ⟨hf, field2, hd, ?_⟩
              simp only [Option.some.injEq, Prod.mk.injEq, true_and] at h
              exact h.symm

theorem step_running_wf (g g' : Game) (rnd : Nat) (h : WellFormed g)
    (hs : step g rnd = some (GameRunning, g')) :
    ¬ at_border g ∧ 0 ≤ candidate g ∧ candidate g < g.size_x * g.size_y
    ∧ ∃ v, readField g.field (candidate g) = some v
      ∧ g.field[(candidate g).toNat]? = some v ∧ v ∈ g.field ∧ v ≤ 0
      ∧ ((candidate g ≠ g.food_pos
          ∧ g' = { g with
                    snake_pos := candidate g
                    field := (g.field.set (candidate g).toNat g.snake_len).map decay_cell })
        ∨ (candidate g = g.food_pos ∧ g.size_x * g.size_y ≠ g.snake_len + 1
          ∧ ∃ fp,
              food_loop (g.field.set (candidate g).toNat g.snake_len) (g.size_x * g.size_y)
                  (g.size_x * g.size_y).toNat 0
                  (Int.tmod (rnd : Int) (g.size_x * g.size_y - (g.snake_len + 1)))
                  g.food_pos = some fp
              ∧ g' = { g with
                        snake_pos := candidate g
                        field := g.field.set (candidate g).toNat g.snake_len
                        snake_len := g.snake_len + 1
                        food_pos := fp })) := by
  obtain ⟨pos, v, field1, hsw, hr, hv, hw, hcase⟩ := step_running_inv g g' rnd hs
  have hnb : ¬ at_border g := by
    intro hb
    rw [step_switch_border g h.size_x_pos h.pos_lo hb] at hsw
    exact absurd hsw (by simp)
  obtain ⟨hsw2, hc0, hc1⟩ := step_switch_free g h hnb
  have hpos : pos = candidate g := by
    rw [hsw2] at hsw
    simp only [Option.some.injEq] at hsw
    exact hsw.symm
  subst hpos
  obtain ⟨v2, hr2, hg2, hm2⟩ :=
    readField_inb g.field (candidate g) hc0 (by rw [h.field_len]; exact hc1)
  have hvv : v2 = v := by
    rw [hr2] at hr
    simpa using hr
  subst hvv
  have hw2 := writeField_inb g.field (candidate g) g.snake_len hc0
    (by rw [h.field_len]; exact hc1)
  have hf1 : field1 = g.field.set (candidate g).toNat g.snake_len := by
    rw [hw2] at hw
    simp only [Option.some.injEq] at hw
    exact hw.symm
  subst hf1
  refine ⟨hnb, hc0, hc1, v2, hr2, hg2, hm2, hv, ?_⟩
  rcases hcase with ⟨hf, field2, hd, hg'⟩ | ⟨hf, hroom, fp, hfp, hg'⟩
  · left
    refine ⟨hf, ?_⟩
    rw [decay_loop_eq _ _ (by rw [List.length_set]; exact h.field_len)] at hd
    simp only [Option.some.injEq] at hd
    rw [hg', ← hd]
  · right
    exact ⟨hf, hroom, fp, hfp, hg'⟩

/-! ## Counting cells -/

theorem positives_eq_countGe (f : List Int) : positives f = countGe 1 f := by
  unfold positives countGe
  apply List.countP_congr
  intro x _
  simp only [decide_eq_true_eq]
  omega

theorem countGe_set (f : List Int) (i : Nat) (a y w : Int) (hy : f[i]? = some y)
    (hlt : y < w) : countGe w (f.set i a) = countGe w f + (if w ≤ a then 1 else 0) := by
  have hi : i < f.length := by
    by_contra hc
    rw [List.getElem?_eq_none (by omega)] at hy
    exact absurd hy (by simp)
  have hget : f[i] = y := by
    rw [List.getElem?_eq_getElem hi] at hy
    simpa using hy
  unfold countGe
  rw [List.countP_set _ _ _ _ hi, hget]
  have hn : ¬ (w ≤ y) := by omega
  simp [hn]

theorem countGe_decay (f : List Int) (v : Int) (hv : 1 ≤ v) :
    countGe v (f.map decay_cell) = countGe (v + 1) f := by
  unfold countGe
  rw [List.countP_map]
  apply List.countP_congr
  intro x _
  simp only [Function.comp_apply, decide_eq_true_eq, decay_cell]
  split <;> omega

theorem countGe_eq_zero (f : List Int) (w : Int) (h : ∀ x ∈ f, x < w) : countGe w f = 0 := by
  unfold countGe
  rw [List.countP_eq_zero]
  intro x hx
  have := h x hx
  simp only [decide_eq_true_eq]
  omega

theorem mem_set_of_mem (f : List Int) (i : Nat) (a x y : Int) (hy : f[i]? = some y)
    (hne : y ≠ x) (hx : x ∈ f) : x ∈ f.set i a := by
  obtain ⟨j, hj⟩ := List.mem_iff_getElem?.mp hx
  apply List.mem_iff_getElem?.mpr
  refine ⟨j, ?_⟩
  have hij : i ≠ j := by
    intro hc
    subst hc
    rw [hy] at hj
    simp only [Option.some.injEq] at hj
    exact hne hj
  rw [List.getElem?_set, if_neg hij]
  exact hj

theorem positives_set (f : List Int) (i : Nat) (a y : Int) (hy : f[i]? = some y)
    (hle : y ≤ 0) (ha : 1 ≤ a) : positives (f.set i a) = positives f + 1 := by
  rw [positives_eq_countGe, positives_eq_countGe, countGe_set f i a y 1 hy (by omega),
    if_pos ha]

/-! ## The initial state -/

theorem mem_desc (k : Nat) (x : Int) : x ∈ desc k ↔ 1 ≤ x ∧ x ≤ (k : Int) := by
  induction k with
  | zero => simp [desc]; omega
  | succ k ih =>
    simp only [desc, List.mem_cons, ih]
    push_cast
    omega

theorem length_desc (k : Nat) : (desc k).length = k := by
  induction k with
  | zero => rfl
  | succ k ih => simp [desc, ih]

theorem countGe_desc (k : Nat) (v : Int) (h1 : 1 ≤ v) (h2 : v ≤ (k : Int) + 1) :
    (countGe v (desc k) : Int) + v = (k : Int) + 1 := by
  induction k with
  | zero =>
    have : v = 1 := by simpa using (by omega : v = 1)
    simp [desc, countGe, this]
  | succ k ih =>
    by_cases hv : v ≤ (k : Int) + 1
    · have := ih hv
      simp only [countGe, desc, List.countP_cons] at this ⊢
      push_cast at this ⊢
      simp only [hv, decide_True, if_true]
      omega
    · have hz : countGe v (desc k) = 0 := by
        apply countGe_eq_zero
        intro x hx
        have := (mem_desc k x).mp hx
        omega
      simp only [countGe] at hz
      simp only [countGe, desc, List.countP_cons, hz]
      push_cast at h2 ⊢
      simp only [hv, decide_False]
      simp
      omega

theorem seed_loop_append (post : List Int) :
    ∀ (k : Nat) (pre : List Int),
      seed_loop k (k : Int) (pre.length : Int) (pre ++ (List.replicate k 0 ++ post))
        = some (pre ++ (desc k ++ post)) := by
  intro k
  induction k with
  | zero => intro pre; simp [seed_loop, desc]
  | succ k ih =>
    intro pre
    have key := ih (pre ++ [((k + 1 : Nat) : Int)])
    simp only [List.length_append, List.length_cons, List.length_nil, Nat.cast_add,
      Nat.cast_one, Nat.zero_add, List.append_assoc, List.singleton_append] at key
    have hc : ((k + 1 : Nat) : Int) > 0 := by push_cast; omega
    simp only [seed_loop, hc, if_true, List.replicate_succ, List.cons_append,
      writeField_append, desc]
    push_cast
    simp only [add_sub_cancel_right]
    exact key

theorem difficulty_lookup (d : Int) :
    ∃ t, difficulty_msecs[(max 0 (min 11 d)).toNat]? = some t := by
  have h : (max 0 (min 11 d)).toNat < difficulty_msecs.length := by
    have : difficulty_msecs.length = 12 := rfl
    omega
  exact ⟨_, List.getElem?_eq_getElem h⟩

theorem init_pos_bounds (sx sy : Int) (hx : 1 ≤ sx) (hy : 1 ≤ sy) :
    0 ≤ sy / 2 * sx + (sx / 2 - min 10 sx / 2)
      ∧ sy / 2 * sx + (sx / 2 - min 10 sx / 2) + min 10 sx ≤ sx * sy := by
  have h1 : 0 ≤ sy / 2 * sx := mul_nonneg (by omega) (by omega)
  have h2 : (sy / 2 + 1) * sx ≤ sy * sx := mul_le_mul_of_nonneg_right (by omega) (by omega)
  have h3 : (sy / 2 + 1) * sx = sy / 2 * sx + sx := by ring
  have h4 : sy * sx = sx * sy := by ring
  constructor <;> omega

theorem init_game_eq (opts : Options) (max_y max_x : Int) (now : timespec)
    (hx : 1 ≤ max_x - 2) (hy : 1 ≤ max_y - 2) :
    ∃ (tick : Int) (a b : Nat),
      (a : Int) = (max_y - 2) / 2 * (max_x - 2)
          + ((max_x - 2) / 2 - min 10 (max_x - 2) / 2)
      ∧ (a : Int) + min 10 (max_x - 2) + (b : Int) = (max_x - 2) * (max_y - 2)
      ∧ init_game opts max_y max_x now = some
          { size_x := max_x - 2
            size_y := max_y - 2
            initial_snake_len := min 10 (max_x - 2)
            snake_len := min 10 (max_x - 2)
            snake_pos := (a : Int)
            food_pos := max 0 ((a : Int) - 1)
            move := Left
            tick_msec := tick
            prev_tick := now
            field := List.replicate a 0
              ++ (desc (min 10 (max_x - 2)).toNat ++ List.replicate b 0) } := by
  obtain ⟨tick, htick⟩ := difficulty_lookup opts.difficulty
  obtain ⟨hp0, hp1⟩ := init_pos_bounds (max_x - 2) (max_y - 2) hx hy
  generalize hsx : max_x - 2 = sx at *
  generalize hsy : max_y - 2 = sy at *
  generalize hpos : sy / 2 * sx + (sx / 2 - min 10 sx / 2) = pos at *
  have hL0 : 0 ≤ min 10 sx := by omega
  refine ⟨tick, pos.toNat, (sx * sy - pos - min 10 sx).toNat, by omega, by omega, ?_⟩
  have hseed := seed_loop_append (List.replicate (sx * sy - pos - min 10 sx).toNat 0)
    (min 10 sx).toNat (List.replicate pos.toNat 0)
  rw [← List.append_assoc, List.append_replicate_replicate,
    List.append_replicate_replicate, List.length_replicate, Int.toNat_of_nonneg hL0,
    Int.toNat_of_nonneg hp0] at hseed
  have hn : pos.toNat + (min 10 sx).toNat + (sx * sy - pos - min 10 sx).toNat
      = (sx * sy).toNat := by omega
  rw [hn] at hseed
  have e1 : Int.tdiv sy 2 = sy / 2 := Int.tdiv_eq_ediv (by omega) (by omega)
  have e2 : Int.tdiv sx 2 = sx / 2 := Int.tdiv_eq_ediv (by omega) (by omega)
  have e3 : Int.tdiv (min 10 sx) 2 = min 10 sx / 2 := Int.tdiv_eq_ediv hL0 (by omega)
  have hneg : ¬ (sx * sy < 0) := by omega
  unfold init_game
  simp only [hsx, hsy, htick, e1, e2, e3, hpos, hneg, if_false, hseed,
    Int.toNat_of_nonneg hp0]

theorem countGe_padded (v : Int) (hv : 1 ≤ v) (a b : Nat) (l : List Int) :
    countGe v (List.replicate a 0 ++ (l ++ List.replicate b 0)) = countGe v l := by
  have hn : ¬ (v ≤ 0) := by omega
  simp [countGe, List.countP_append, List.countP_replicate, hn]

theorem inv_init (opts : Options) (max_y max_x : Int) (now : timespec) (g : Game)
    (hx : 1 ≤ max_x - 2) (hy : 1 ≤ max_y - 2)
    (h : init_game opts max_y max_x now = some g) : Inv g := by
  obtain ⟨tick, a, b, _, hab, heq⟩ := init_game_eq opts max_y max_x now hx hy
  rw [heq] at h
  simp only [Option.some.injEq] at h
  subst h
  generalize max_x - 2 = sx at *
  generalize max_y - 2 = sy at *
  have hL0 : 0 ≤ min 10 sx := by omega
  have hLn : (((min 10 sx).toNat : Nat) : Int) = min 10 sx := Int.toNat_of_nonneg hL0
  have hmem : ∀ v ∈ List.replicate a (0 : Int) ++ (desc (min 10 sx).toNat
      ++ List.replicate b 0), v = 0 ∨ (1 ≤ v ∧ v ≤ min 10 sx) := by
    intro v hv
    simp only [List.mem_append, List.mem_replicate, mem_desc] at hv
    rcases hv with ⟨_, h0⟩ | h1 | ⟨_, h0⟩
    · exact Or.inl h0
    · exact Or.inr (by omega)
    · exact Or.inl h0
  refine ⟨⟨hx, hy, ?_, by simp only; omega, by simp only; omega⟩, by simp only; omega, ?_, ?_, ?_, ?_, ?_, ?_⟩
  · simp only [List.length_append, List.length_replicate, length_desc]
    push_cast
    omega
  · intro v hv
    rcases hmem v hv with h0 | h1 <;> omega
  · intro v hv
    rcases hmem v hv with h0 | h1 <;> simp only <;> omega
  · intro v h1 h2
    simp only at h2 ⊢
    rw [countGe_padded v h1]
    have := countGe_desc (min 10 sx).toNat v h1 (by omega)
    omega
  · intro v h1 h2
    simp only at h2 ⊢
    rw [countGe_padded v h1]
    have := countGe_desc (min 10 sx).toNat v h1 (by omega)
    omega
  · intro v h1 h2
    simp only at h2 ⊢
    simp only [List.mem_append, mem_desc]
    exact Or.inr (Or.inl (by omega))
  · simp only
    by_cases hz : a = 0 ∧ b = 0
    · right
      obtain ⟨ha, hb⟩ := hz
      subst ha
      subst hb
      intro v hv
      simp only [List.replicate_zero, List.nil_append, List.append_nil, mem_desc] at hv
      omega
    · left
      omega

/-! ## The invariant is kept by step -/

theorem inv_step_plain (g : Game) (h : Inv g) (v : Int) (hc0 : 0 ≤ candidate g)
    (hc1 : candidate g < g.size_x * g.size_y)
    (hg : g.field[(candidate g).toNat]? = some v) (hm : v ∈ g.field) (hv : v ≤ 0) :
    Inv { g with
          snake_pos := candidate g
          field := (g.field.set (candidate g).toNat g.snake_len).map decay_cell } := by
  obtain ⟨⟨hx, hy, hlen, _, _⟩, hl, hnn, hle, hup, hlo, hpr, hroom⟩ := h
  have hmemset : ∀ x ∈ g.field.set (candidate g).toNat g.snake_len,
      0 ≤ x ∧ x ≤ g.snake_len := by
    intro x hx
    rcases List.mem_or_eq_of_mem_set hx with h1 | h1
    · exact ⟨hnn x h1, hle x h1⟩
    · omega
  have hcount : ∀ w : Int, 1 ≤ w → w ≤ g.snake_len →
      countGe w ((g.field.set (candidate g).toNat g.snake_len).map decay_cell)
        = if w + 1 ≤ g.snake_len then countGe (w + 1) g.field + 1 else 0 := by
    intro w h1 h2
    rw [countGe_decay _ w h1, countGe_set g.field _ g.snake_len v (w + 1) hg (by omega)]
    by_cases hw : w + 1 ≤ g.snake_len
    · simp [hw]
    · simp only [hw, if_false, Nat.add_zero]
      apply countGe_eq_zero
      intro x hx
      have := hle x hx
      omega
  refine ⟨⟨hx, hy, ?_, hc0, hc1⟩, hl, ?_, ?_, ?_, ?_, ?_, ?_⟩
  · simp only [List.length_map, List.length_set]
    exact hlen
  · intro x hx
    simp only [List.mem_map] at hx
    obtain ⟨y, hy1, hy2⟩ := hx
    have := hmemset y hy1
    unfold decay_cell at hy2
    split at hy2 <;> omega
  · intro x hx
    simp only [List.mem_map] at hx
    obtain ⟨y, hy1, hy2⟩ := hx
    have := hmemset y hy1
    unfold decay_cell at hy2
    simp only
    split at hy2 <;> omega
  · intro w h1 h2
    simp only at h2 ⊢
    rw [hcount w h1 h2]
    by_cases hw : w + 1 ≤ g.snake_len
    · have := hup (w + 1) (by omega) hw
      simp only [hw, if_true]
      push_cast
      omega
    · simp only [hw, if_false]
      push_cast
      omega
  · intro w h1 h2
    simp only at h2 ⊢
    rw [hcount w h1 h2]
    by_cases hw : w + 1 ≤ g.snake_len
    · have := hlo (w + 1) (by omega) hw
      simp only [hw, if_true]
      push_cast
      omega
    · simp only [hw, if_false]
      push_cast
      omega
  · intro w h1 h2
    simp only at h2 ⊢
    simp only [List.mem_map]
    refine ⟨w + 1, ?_, by unfold decay_cell; rw [if_pos (by omega)]; omega⟩
    by_cases hw : w + 1 = g.snake_len
    · rw [hw]
      exact List.mem_set _ _ (by omega) _
    · exact mem_set_of_mem g.field _ g.snake_len (w + 1) v hg (by omega)
        (hpr (w + 1) (by omega) (by omega))
  · rcases hroom with h1 | h1
    · exact Or.inl h1
    · have := h1 v hm
      omega

theorem inv_step_eat (g : Game) (h : Inv g) (v fp : Int) (hc0 : 0 ≤ candidate g)
    (hc1 : candidate g < g.size_x * g.size_y)
    (hg : g.field[(candidate g).toNat]? = some v) (hm : v ∈ g.field) (hv : v ≤ 0)
    (hne : g.size_x * g.size_y ≠ g.snake_len + 1) :
    Inv { g with
          snake_pos := candidate g
          field := g.field.set (candidate g).toNat g.snake_len
          snake_len := g.snake_len + 1
          food_pos := fp } := by
  obtain ⟨⟨hx, hy, hlen, _, _⟩, hl, hnn, hle, hup, hlo, hpr, hroom⟩ := h
  have hmemset : ∀ x ∈ g.field.set (candidate g).toNat g.snake_len,
      0 ≤ x ∧ x ≤ g.snake_len := by
    intro x hx
    rcases List.mem_or_eq_of_mem_set hx with h1 | h1
    · exact ⟨hnn x h1, hle x h1⟩
    · omega
  have hcount : ∀ w : Int, 1 ≤ w → w ≤ g.snake_len + 1 →
      countGe w (g.field.set (candidate g).toNat g.snake_len)
        = if w ≤ g.snake_len then countGe w g.field + 1 else 0 := by
    intro w h1 h2
    rw [countGe_set g.field _ g.snake_len v w hg (by omega)]
    by_cases hw : w ≤ g.snake_len
    · simp [hw]
    · simp only [hw, if_false, Nat.add_zero]
      apply countGe_eq_zero
      intro x hx
      have := hle x hx
      omega
  refine ⟨⟨hx, hy, ?_, hc0, hc1⟩, by simp only; omega, ?_, ?_, ?_, ?_, ?_, ?_⟩
  · simp only [List.length_set]
    exact hlen
  · intro x hx
    exact (hmemset x hx).1
  · intro x hx
    have := (hmemset x hx).2
    simp only
    omega
  · intro w h1 h2
    simp only at h2 ⊢
    rw [hcount w h1 h2]
    by_cases hw : w ≤ g.snake_len
    · have := hup w h1 hw
      simp only [hw, if_true]
      push_cast
      omega
    · simp only [hw, if_false]
      push_cast
      omega
  · intro w h1 h2
    simp only at h2 ⊢
    rw [hcount w h1 h2]
    by_cases hw : w ≤ g.snake_len
    · have := hlo w h1 hw
      simp only [hw, if_true]
      push_cast
      omega
    · simp only [hw, if_false]
      push_cast
      omega
  · intro w h1 h2
    simp only at h2 ⊢
    by_cases hw : w = g.snake_len
    · rw [hw]
      exact List.mem_set _ _ (by omega) _
    · exact mem_set_of_mem g.field _ g.snake_len w v hg (by omega)
        (hpr w h1 (by omega))
  · rcases hroom with h1 | h1
    · left
      simp only
      omega
    · have := h1 v hm
      omega

theorem inv_latch (g : Game) (d : direction) (h : Inv g) : Inv (latch g d) :=
  ⟨⟨h.wf.size_x_pos, h.wf.size_y_pos, h.wf.field_len, h.wf.pos_lo, h.wf.pos_hi⟩,
    h.len_pos, h.nonneg, h.le_len, h.upper, h.lower, h.present, h.room⟩

theorem is_tick_snd (g : Game) (now : timespec) :
    (is_tick g now).2 = g ∨ (is_tick g now).2 = { g with prev_tick := now } := by
  unfold is_tick
  simp only
  split_ifs <;> simp

theorem inv_tick (g : Game) (now : timespec) (h : Inv g) : Inv (is_tick g now).2 := by
  rcases is_tick_snd g now with h1 | h1 <;> rw [h1]
  · exact h
  · exact ⟨⟨h.wf.size_x_pos, h.wf.size_y_pos, h.wf.field_len, h.wf.pos_lo, h.wf.pos_hi⟩,
      h.len_pos, h.nonneg, h.le_len, h.upper, h.lower, h.present, h.room⟩

theorem inv_step (g g' : Game) (rnd : Nat) (h : Inv g)
    (hs : step g rnd = some (GameRunning, g')) : Inv g' := by
  obtain ⟨_, hc0, hc1, v, _, hg, hm, hv, hcase⟩ := step_running_wf g g' rnd h.wf hs
  rcases hcase with ⟨_, hg'⟩ | ⟨_, hne, fp, _, hg'⟩
  · rw [hg']
    exact inv_step_plain g h v hc0 hc1 hg hm hv
  · rw [hg']
    exact inv_step_eat g h v fp hc0 hc1 hg hm hv hne

theorem reach_inv (n : Nat) (g : Game) (h : Reach n g) : Inv g := by
  induction h with
  | init opts max_y max_x now g hx hy hi => exact inv_init opts max_y max_x now g hx hy hi
  | latch n g d _ ih => exact inv_latch g d ih
  | tick n g now _ ih => exact inv_tick g now ih
  | step n g g' rnd _ hs ih => exact inv_step g g' rnd ih hs

/-! ## The head cell after a step -/

theorem head_after_step (g g' : Game) (rnd : Nat) (h : Inv g)
    (hs : step g rnd = some (GameRunning, g')) :
    readField g'.field g'.snake_pos = some (g'.snake_len - 1)
      ∧ ∀ x ∈ g'.field, x ≤ g'.snake_len - 1 := by
  obtain ⟨_, hc0, hc1, v, _, hg, hm, hv, hcase⟩ := step_running_wf g g' rnd h.wf hs
  have hlt : (candidate g).toNat < g.field.length := by
    have := h.wf.field_len
    omega
  have hl := h.len_pos
  have hmemset : ∀ x ∈ g.field.set (candidate g).toNat g.snake_len, x ≤ g.snake_len := by
    intro x hx
    rcases List.mem_or_eq_of_mem_set hx with h1 | h1
    · exact h.le_len x h1
    · omega
  rcases hcase with ⟨_, hg'⟩ | ⟨_, hne, fp, _, hg'⟩
  · rw [hg']
    constructor
    · simp only [readField, hc0, if_true, List.getElem?_map, List.getElem?_set, hlt,
        Option.map_some', decay_cell]
      rw [if_pos (by omega)]
    · intro x hx
      simp only [List.mem_map] at hx
      obtain ⟨y, hy1, hy2⟩ := hx
      have := hmemset y hy1
      unfold decay_cell at hy2
      simp only
      split at hy2 <;> omega
  · rw [hg']
    constructor
    · simp only [readField, hc0, if_true, List.getElem?_set, hlt]
      simp
    · intro x hx
      have := hmemset x hx
      simp only
      omega

theorem reach_head (m : Nat) (g : Game) (h : Reach m g) (hm : 1 ≤ m) :
    readField g.field g.snake_pos = some (g.snake_len - 1)
      ∧ ∀ x ∈ g.field, x ≤ g.snake_len - 1 := by
  induction h with
  | init opts max_y max_x now g hx hy hi => omega
  | latch n g d _ ih => exact ih hm
  | tick n g now _ ih =>
    have := ih hm
    rcases is_tick_snd g now with h1 | h1 <;> rw [h1] <;> exact this
  | step n g g' rnd hr hs _ => exact head_after_step g g' rnd (reach_inv n g hr) hs

/-! ## Food placement -/

theorem zeros_add_positives (l : List Int) (h : ∀ x ∈ l, 0 ≤ x) :
    (l.countP fun x => decide (x = 0)) + positives l = l.length := by
  induction l with
  | nil => rfl
  | cons a l ih =>
    have ha := h a (List.mem_cons_self _ _)
    have := ih (fun x hx => h x (List.mem_cons_of_mem _ hx))
    unfold positives at this ⊢
    simp only [List.countP_cons, List.length_cons]
    by_cases hz : a = 0
    · subst hz
      simp
      omega
    · have hp : 0 < a := by omega
      simp [hz, hp]
      omega

theorem food_after_eat (g g' : Game) (rnd : Nat) (h : Inv g)
    (hs : step g rnd = some (GameRunning, g')) (hfood : g'.snake_pos = g.food_pos) :
    g'.snake_len = g.snake_len + 1
      ∧ writeField g.field g'.snake_pos g.snake_len = some g'.field
      ∧ g'.snake_len < g.size_x * g.size_y
      ∧ 0 ≤ Int.tmod (rnd : Int) (g.size_x * g.size_y - g'.snake_len)
      ∧ Int.tmod (rnd : Int) (g.size_x * g.size_y - g'.snake_len)
          < g.size_x * g.size_y - g'.snake_len
      ∧ ∃ q : Nat, g'.food_pos = (q : Int) ∧ q < g'.field.length
          ∧ g'.field[q]? = some 0
          ∧ (zerosBefore g'.field q : Int)
              = Int.tmod (rnd : Int) (g.size_x * g.size_y - g'.snake_len)
          ∧ g'.food_pos ≠ g'.snake_pos := by
  obtain ⟨_, hc0, hc1, v, _, hg, hm, hv, hcase⟩ := step_running_wf g g' rnd h.wf hs
  have hflen := h.wf.field_len
  have hl := h.len_pos
  rcases hcase with ⟨hf, hg'⟩ | ⟨_, hne, fp, hfp, hg'⟩
  · rw [hg'] at hfood
    exact absurd hfood hf
  · have hroom : g.snake_len + 1 < g.size_x * g.size_y := by
      rcases h.room with h1 | h1
      · omega
      · have := h1 v hm
        omega
    have hr0 : 0 ≤ Int.tmod (rnd : Int) (g.size_x * g.size_y - (g.snake_len + 1)) := by
      rw [Int.tmod_eq_emod (by omega) (by omega)]
      exact Int.emod_nonneg _ (by omega)
    have hr1 : Int.tmod (rnd : Int) (g.size_x * g.size_y - (g.snake_len + 1))
        < g.size_x * g.size_y - (g.snake_len + 1) := by
      rw [Int.tmod_eq_emod (by omega) (by omega)]
      exact Int.emod_lt_of_pos _ (by omega)
    have hlen1 : ((g.field.set (candidate g).toNat g.snake_len).length : Int)
        = g.size_x * g.size_y := by
      rw [List.length_set]
      exact hflen
    have hnn1 : ∀ x ∈ g.field.set (candidate g).toNat g.snake_len, 0 ≤ x := by
      intro x hx
      rcases List.mem_or_eq_of_mem_set hx with h1 | h1
      · exact h.nonneg x h1
      · omega
    have hz := zeros_add_positives _ hnn1
    have hp := positives_set g.field (candidate g).toNat g.snake_len v hg hv hl
    have hu := h.upper 1 (by omega) hl
    rw [← positives_eq_countGe] at hu
    obtain ⟨q, h1q, h2q, h3q⟩ := food_loop_found_all
      (g.field.set (candidate g).toNat g.snake_len) (g.size_x * g.size_y) g.food_pos
      (Int.tmod (rnd : Int) (g.size_x * g.size_y - (g.snake_len + 1))) hlen1 hr0
      (by omega)
    rw [h1q] at hfp
    simp only [Option.some.injEq] at hfp
    have hqlt : q < (g.field.set (candidate g).toNat g.snake_len).length := by
      by_contra hc
      rw [List.getElem?_eq_none (by omega)] at h2q
      exact absurd h2q (by simp)
    rw [hg']
    refine ⟨rfl, writeField_inb g.field (candidate g) g.snake_len hc0 (by omega), hroom,
      hr0, hr1, q, hfp.symm, hqlt, h2q, h3q, ?_⟩
    simp only
    intro hc
    have hqc : q = (candidate g).toNat := by omega
    rw [hqc, List.getElem?_set] at h2q
    have hlt : (candidate g).toNat < g.field.length := by omega
    simp only [if_true, hlt, Option.some.injEq] at h2q
    omega

/-! ## Properties of one call of step -/

/-- C1: on a grid of at least one cell with the head on the grid, a move Up from row 0,
Down from the last row, Left from column 0 or Right from the last column makes `step`
return `GameOver` and leaves every component of the game as it was. -/
theorem step_border_gameover (g : Game) (rnd : Nat)
    (hx : 1 ≤ g.size_x) (hy : 1 ≤ g.size_y)
    (h0 : 0 ≤ g.snake_pos) (h1 : g.snake_pos < g.size_x * g.size_y)
    (hb : (g.move = Up ∧ g.snake_pos < g.size_x)
      ∨ (g.move = Down ∧ g.size_x * (g.size_y - 1) ≤ g.snake_pos)
      ∨ (g.move = Left ∧ g.snake_pos % g.size_x = 0)
      ∨ (g.move = Right ∧ (g.snake_pos + 1) % g.size_x = 0)) :
    step g rnd = some (GameOver, g) := by
  apply step_of_border g rnd hx h0
  unfold at_border
  rcases hb with ⟨hm, h⟩ | ⟨hm, h⟩ | ⟨hm, h⟩ | ⟨hm, h⟩ <;> simpa [hm] using h

theorem step_border_gameover_witness :
    step (latch grid3 Left) 0 = some (GameOver, latch grid3 Left) :=
  step_border_gameover (latch grid3 Left) 0 (by decide) (by decide) (by decide) (by decide)
    (Or.inr (Or.inr (Or.inl ⟨rfl, by decide⟩)))

/-- C2, at the failing input: in the 2 x 2 game reached by Up and Right, the move Down
is not rejected by the border check and the cell below the head is empty, yet `step`
does not return `GameRunning`: it computes `rand() % 0`. -/
theorem step_last_cell_not_running :
    WellFormed (latch grid2_last Down) ∧ ¬ at_border (latch grid2_last Down)
      ∧ readField grid2_last.field (candidate (latch grid2_last Down)) = some 0
      ∧ ∀ rnd, step (latch grid2_last Down) rnd = none := by
  have hwf : WellFormed (latch grid2_last Down) :=
    ⟨by decide, by decide, by decide, by decide, by decide⟩
  have hb : ¬ at_border (latch grid2_last Down) := by decide
  have hr : readField (latch grid2_last Down).field (candidate (latch grid2_last Down))
      = some 0 := by decide
  exact ⟨hwf, hb, hr, fun rnd =>
    step_of_full (latch grid2_last Down) rnd hwf hb 0 hr (by decide) (by decide) (by decide)⟩

/-- C3, as the code has it: when the move passes the border check and the candidate
cell holds a value `> 0`, `step` returns `GameOver` and leaves the game as it was except
for `snake_pos`, which is already the candidate cell. -/
theorem step_body_gameover (g : Game) (rnd : Nat) (v : Int)
    (h : WellFormed g) (hb : ¬ at_border g)
    (hr : readField g.field (candidate g) = some v) (hv : 0 < v) :
    step g rnd = some (GameOver, { g with snake_pos := candidate g }) :=
  step_of_body g rnd h hb v hr hv

theorem step_body_gameover_witness :
    WellFormed (latch grid3 Right) ∧ ¬ at_border (latch grid3 Right)
      ∧ readField (latch grid3 Right).field (candidate (latch grid3 Right)) = some 2
      ∧ step (latch grid3 Right) 0
        = some (GameOver,
            { latch grid3 Right with snake_pos := candidate (latch grid3 Right) }) :=
  ⟨⟨by decide, by decide, by decide, by decide, by decide⟩, by decide, by decide,
    step_body_gameover (latch grid3 Right) 0 2
      ⟨by decide, by decide, by decide, by decide, by decide⟩ (by decide) (by decide)
      (by decide)⟩

/-- C3, counterexample: in the initial 3 x 3 game the move Right passes the border check
and runs into the body (cell 4 holds 2); `step` returns `GameOver` with the head moved
from cell 3 to cell 4, so the state is not unchanged. -/
theorem body_hit_moves_head :
    ¬ at_border (latch grid3 Right)
      ∧ readField (latch grid3 Right).field (candidate (latch grid3 Right)) = some 2
      ∧ (latch grid3 Right).snake_pos = 3
      ∧ step (latch grid3 Right) 0 = some (GameOver, { latch grid3 Right with snake_pos := 4 })
      ∧ step (latch grid3 Right) 0 ≠ some (GameOver, latch grid3 Right) := by
  refine ⟨by decide, by decide, by decide, by decide, by decide⟩

/-- C4: when `step` returns `GameRunning` with the new head on the old `food_pos` and
`snake_len ≥ 1`, the field has exactly one more cell with value `> 0` than before and
`snake_len` is exactly one more than before. -/
theorem step_eat_counts (g g' : Game) (rnd : Nat)
    (hs : step g rnd = some (GameRunning, g')) (hfood : g'.snake_pos = g.food_pos)
    (hlen : 1 ≤ g.snake_len) :
    positives g'.field = positives g.field + 1 ∧ g'.snake_len = g.snake_len + 1 := by
  obtain ⟨pos, v, field1, _, hr, hv, hw, hcase⟩ := step_running_inv g g' rnd hs
  rcases hcase with ⟨hf, _, _, hg'⟩ | ⟨_, _, fp, _, hg'⟩
  · rw [hg'] at hfood
    exact absurd hfood hf
  · unfold readField at hr
    unfold writeField at hw
    split at hr
    · split at hw
      · simp only [Option.some.injEq] at hw
        rw [hg', ← hw]
        exact ⟨positives_set g.field _ g.snake_len v hr hv hlen, rfl⟩
      · exact absurd hw (by simp)
    · exact absurd hr (by simp)

theorem step_eat_counts_witness :
    step (latch grid3_food Up) 7
        = some (GameRunning,
            { latch grid3_food Up with
              snake_pos := 0, snake_len := 4, food_pos := 6
              field := [3, 0, 0, 3, 2, 1, 0, 0, 0] })
      ∧ positives [3, 0, 0, 3, 2, 1, 0, 0, 0] = positives (latch grid3_food Up).field + 1
      ∧ (4 : Int) = (latch grid3_food Up).snake_len + 1 :=
  ⟨by decide,
    step_eat_counts (latch grid3_food Up)
      { latch grid3_food Up with
        snake_pos := 0, snake_len := 4, food_pos := 6
        field := [3, 0, 0, 3, 2, 1, 0, 0, 0] } 7 (by decide) (by decide) (by decide)⟩

/-! ## Concrete runs -/

theorem reach_grid3 : Reach 0 grid3 :=
  Reach.init ⟨5⟩ 5 5 ⟨0, 0⟩ grid3 (by decide) (by decide) (by decide)

theorem reach_grid3_one : Reach 1 grid3_one :=
  Reach.step 0 (latch grid3 Up) grid3_one 0 (Reach.latch 0 grid3 Up reach_grid3) (by decide)

theorem reach_grid3_two : Reach 2 grid3_two :=
  Reach.step 1 (latch grid3_one Right) grid3_two 0
    (Reach.latch 1 grid3_one Right reach_grid3_one) (by decide)

theorem reach_grid3_three : Reach 3 grid3_three :=
  Reach.step 2 (latch grid3_two Down) grid3_three 0
    (Reach.latch 2 grid3_two Down reach_grid3_two) (by decide)

theorem reach_grid2 : Reach 0 grid2 :=
  Reach.init ⟨5⟩ 4 4 ⟨0, 0⟩ grid2 (by decide) (by decide) (by decide)

theorem reach_grid2_one : Reach 1 grid2_one :=
  Reach.step 0 (latch grid2 Up) grid2_one 0 (Reach.latch 0 grid2 Up reach_grid2) (by decide)

theorem reach_grid2_last : Reach 2 grid2_last :=
  Reach.step 1 (latch grid2_one Right) grid2_last 0
    (Reach.latch 1 grid2_one Right reach_grid2_one) (by decide)

/-! ## Properties of runs -/

/-- C5, at the failing input: the 3 x 3 game after the steps Up and Right is reachable;
the next step, Down, returns `GameRunning` without eating food (the head goes to cell 4,
the food is at cell 2), and the number of cells with value `> 0` drops from 3 to 2. -/
theorem step_plain_drops_cell :
    Reach 2 grid3_two
      ∧ (∀ rnd, step (latch grid3_two Down) rnd = some (GameRunning, grid3_three))
      ∧ grid3_three.snake_pos ≠ grid3_two.food_pos
      ∧ positives grid3_two.field = 3
      ∧ positives grid3_three.field = 2 := by
  refine ⟨reach_grid3_two, ?_, by decide, by decide, by decide⟩
  intro rnd
  exact (step_of_plain (latch grid3_two Down) rnd
    ⟨by decide, by decide, by decide, by decide, by decide⟩ (by decide) 0 (by decide)
    (by decide) (by decide)).trans (by decide)

/-- C6, as the code has it: in every state reached from `init_game` by one or more steps
that returned `GameRunning`, the number of cells with value `> 0` is `snake_len` or
`snake_len - 1`. -/
theorem positives_len_or_pred (n : Nat) (g : Game) (h : Reach (n + 1) g) :
    (positives g.field : Int) = g.snake_len
      ∨ (positives g.field : Int) = g.snake_len - 1 := by
  have hi := reach_inv (n + 1) g h
  have h1 := hi.upper 1 (by omega) hi.len_pos
  have h2 := hi.lower 1 (by omega) hi.len_pos
  rw [positives_eq_countGe]
  omega

theorem positives_len_or_pred_witness :
    Reach (2 + 1) grid3_three
      ∧ ((positives grid3_three.field : Int) = grid3_three.snake_len
        ∨ (positives grid3_three.field : Int) = grid3_three.snake_len - 1) :=
  ⟨reach_grid3_three, positives_len_or_pred 2 grid3_three reach_grid3_three⟩

/-- C6, counterexample: the 3 x 3 game after the steps Up, Right, Down is reached by
three steps that returned `GameRunning`; `snake_len` is 3 but only 2 cells hold a value
`> 0`. -/
theorem positives_below_len :
    Reach 3 grid3_three ∧ grid3_three.snake_len = 3 ∧ positives grid3_three.field = 2
      ∧ (positives grid3_three.field : Int) ≠ grid3_three.snake_len :=
  ⟨reach_grid3_three, by decide, by decide, by decide⟩

/-- C7, as the code has it: in every state reached from `init_game` by one or more steps
that returned `GameRunning`, the head cell `field[snake_pos]` holds `snake_len - 1` (the
head is written with the length before the increment, and a step without food decays it
once), every field value lies between 0 and `snake_len - 1`, and each of the values
`snake_len - 1`, ..., `1` occurs in the field. -/
theorem head_holds_len_pred (n : Nat) (g : Game) (h : Reach (n + 1) g) :
    readField g.field g.snake_pos = some (g.snake_len - 1)
      ∧ (∀ v ∈ g.field, 0 ≤ v ∧ v ≤ g.snake_len - 1)
      ∧ ∀ v : Int, 1 ≤ v → v ≤ g.snake_len - 1 → v ∈ g.field := by
  have hi := reach_inv (n + 1) g h
  obtain ⟨h1, h2⟩ := reach_head (n + 1) g h (by omega)
  exact ⟨h1, fun v hv => ⟨hi.nonneg v hv, h2 v hv⟩,
    fun v hv1 hv2 => hi.present v hv1 (by omega)⟩

theorem head_holds_len_pred_witness :
    Reach (0 + 1) grid3_one
      ∧ readField grid3_one.field grid3_one.snake_pos = some (grid3_one.snake_len - 1)
      ∧ (∀ v ∈ grid3_one.field, 0 ≤ v ∧ v ≤ grid3_one.snake_len - 1)
      ∧ ∀ v : Int, 1 ≤ v → v ≤ grid3_one.snake_len - 1 → v ∈ grid3_one.field :=
  ⟨reach_grid3_one, head_holds_len_pred 0 grid3_one reach_grid3_one⟩

/-- C7, counterexample: after the single step Up in the 3 x 3 game `snake_len` is 3, the
head cell holds 2, no cell holds 3 and two cells hold 2. -/
theorem head_below_len :
    Reach 1 grid3_one ∧ grid3_one.snake_len = 3
      ∧ readField grid3_one.field grid3_one.snake_pos = some 2
      ∧ grid3_one.field.count 3 = 0 ∧ grid3_one.field.count 2 = 2 :=
  ⟨reach_grid3_one, by decide, by decide, by decide, by decide⟩

/-- C8: from every reachable state and for every value of `rand()`, a step that returns
`GameRunning` with the head on the old `food_pos` leaves `food_pos` on an in-bounds cell
with value 0 that is not the head cell. -/
theorem food_after_eating_is_empty (g g' : Game) (rnd : Nat) (hr : Reachable g)
    (hs : step g rnd = some (GameRunning, g')) (hfood : g'.snake_pos = g.food_pos) :
    0 ≤ g'.food_pos ∧ g'.food_pos < g'.size_x * g'.size_y
      ∧ readField g'.field g'.food_pos = some 0 ∧ g'.food_pos ≠ g'.snake_pos := by
  obtain ⟨n, hn⟩ := hr
  have hi := reach_inv n g hn
  have hi' := inv_step g g' rnd hi hs
  obtain ⟨_, _, _, _, _, q, hq, hqlt, hq0, _, hne⟩ := food_after_eat g g' rnd hi hs hfood
  have hlen := hi'.wf.field_len
  refine ⟨by omega, by omega, ?_, hne⟩
  rw [hq]
  simpa [readField] using hq0

theorem food_after_eating_is_empty_witness :
    Reachable (latch grid3_two Right)
      ∧ step (latch grid3_two Right) 7 = some (GameRunning, grid3_ate)
      ∧ grid3_ate.snake_pos = (latch grid3_two Right).food_pos
      ∧ 0 ≤ grid3_ate.food_pos ∧ grid3_ate.food_pos < grid3_ate.size_x * grid3_ate.size_y
      ∧ readField grid3_ate.field grid3_ate.food_pos = some 0
      ∧ grid3_ate.food_pos ≠ grid3_ate.snake_pos :=
  ⟨⟨2, Reach.latch 2 grid3_two Right reach_grid3_two⟩, by decide, by decide,
    food_after_eating_is_empty (latch grid3_two Right) grid3_ate 7
      ⟨2, Reach.latch 2 grid3_two Right reach_grid3_two⟩ (by decide) (by decide)⟩

/-- C9: in a step from a reachable state that returns `GameRunning` with the head on the
old `food_pos`, `snake_len` is incremented, the field after the step is the field after
the head write, the index `r = rand() % (size_x*size_y - snake_len)` computed with the
incremented `snake_len` satisfies `0 ≤ r < size_x*size_y - snake_len`, and the new
`food_pos` is the `r`-th empty cell in scan order: `field[food_pos] = 0` and exactly `r`
indices below `food_pos` hold 0. -/
theorem food_is_rth_empty (g g' : Game) (rnd : Nat) (hr : Reachable g)
    (hs : step g rnd = some (GameRunning, g')) (hfood : g'.snake_pos = g.food_pos) :
    g'.snake_len = g.snake_len + 1
      ∧ writeField g.field g'.snake_pos g.snake_len = some g'.field
      ∧ 0 ≤ Int.tmod (rnd : Int) (g.size_x * g.size_y - g'.snake_len)
      ∧ Int.tmod (rnd : Int) (g.size_x * g.size_y - g'.snake_len)
          < g.size_x * g.size_y - g'.snake_len
      ∧ 0 ≤ g'.food_pos
      ∧ readField g'.field g'.food_pos = some 0
      ∧ (zerosBefore g'.field g'.food_pos.toNat : Int)
          = Int.tmod (rnd : Int) (g.size_x * g.size_y - g'.snake_len) := by
  obtain ⟨n, hn⟩ := hr
  have hi := reach_inv n g hn
  obtain ⟨h1, h2, _, h4, h5, q, hq, hqlt, hq0, hqz, _⟩ :=
    food_after_eat g g' rnd hi hs hfood
  refine ⟨h1, h2, h4, h5, by omega, ?_, ?_⟩
  · rw [hq]
    simpa [readField] using hq0
  · rw [hq]
    simpa using hqz

theorem food_is_rth_empty_witness :
    Reachable (latch grid3_two Right)
      ∧ step (latch grid3_two Right) 7 = some (GameRunning, grid3_ate)
      ∧ grid3_ate.snake_pos = (latch grid3_two Right).food_pos
      ∧ grid3_ate.snake_len = (latch grid3_two Right).snake_len + 1
      ∧ writeField (latch grid3_two Right).field grid3_ate.snake_pos
          (latch grid3_two Right).snake_len = some grid3_ate.field
      ∧ 0 ≤ Int.tmod ((7 : Nat) : Int)
          ((latch grid3_two Right).size_x * (latch grid3_two Right).size_y
            - grid3_ate.snake_len)
      ∧ Int.tmod ((7 : Nat) : Int)
          ((latch grid3_two Right).size_x * (latch grid3_two Right).size_y
            - grid3_ate.snake_len)
          < (latch grid3_two Right).size_x * (latch grid3_two Right).size_y
            - grid3_ate.snake_len
      ∧ 0 ≤ grid3_ate.food_pos
      ∧ readField grid3_ate.field grid3_ate.food_pos = some 0
      ∧ (zerosBefore grid3_ate.field grid3_ate.food_pos.toNat : Int)
          = Int.tmod ((7 : Nat) : Int)
              ((latch grid3_two Right).size_x * (latch grid3_two Right).size_y
                - grid3_ate.snake_len) :=
  ⟨⟨2, Reach.latch 2 grid3_two Right reach_grid3_two⟩, by decide, by decide,
    food_is_rth_empty (latch grid3_two Right) grid3_ate 7
      ⟨2, Reach.latch 2 grid3_two Right reach_grid3_two⟩ (by decide) (by decide)⟩

/-- C10, at the failing input: the 2 x 2 game after the steps Up and Right is reachable
and has `size_x*size_y - snake_len = 1`, with the food on the last empty cell right below
the head; the step Down eats it and, whatever `rand()` returns, computes `rand() % 0`:
`step` has no defined result. -/
theorem step_eat_last_cell_undefined :
    Reach 2 grid2_last
      ∧ grid2_last.size_x * grid2_last.size_y - grid2_last.snake_len = 1
      ∧ candidate (latch grid2_last Down) = grid2_last.food_pos
      ∧ grid2_last.size_x * grid2_last.size_y - (grid2_last.snake_len + 1) = 0
      ∧ ∀ rnd, step (latch grid2_last Down) rnd = none := by
  refine ⟨reach_grid2_last, by decide, by decide, by decide, ?_⟩
  intro rnd
  exact step_of_full (latch grid2_last Down) rnd
    ⟨by decide, by decide, by decide, by decide, by decide⟩ (by decide) 0 (by decide)
    (by decide) (by decide) (by decide)

/-! ## The tick scheduler -/

theorem is_tick_eq (g : Game) (now : timespec) :
    is_tick g now
      = if msec_diff g.prev_tick now > g.tick_msec then (true, { g with prev_tick := now })
        else (false, g) := rfl

theorem msec_diff_same_sec (prev now : timespec) (hs : now.tv_sec = prev.tv_sec)
    (hn : prev.tv_nsec ≤ now.tv_nsec) :
    msec_diff prev now = elapsed_nsec prev now / 1000000 := by
  unfold msec_diff elapsed_nsec
  simp only
  rw [if_neg (by omega), Int.tdiv_eq_ediv (by omega) (by omega)]
  omega

theorem msec_diff_next_sec (prev now : timespec) (hs : prev.tv_sec < now.tv_sec)
    (hp : normalized prev) (hn : normalized now) :
    msec_diff prev now = (elapsed_nsec prev now - 1) / 1000000 := by
  obtain ⟨hp0, hp1⟩ := hp
  obtain ⟨hn0, hn1⟩ := hn
  unfold msec_diff elapsed_nsec
  simp only
  rw [if_pos (by omega), Int.tdiv_eq_ediv (by omega) (by omega)]
  omega

theorem msec_diff_bounds (prev now : timespec) (hp : normalized prev) (hn : normalized now)
    (he : 0 ≤ elapsed_nsec prev now) :
    msec_diff prev now * 1000000 ≤ elapsed_nsec prev now
      ∧ elapsed_nsec prev now ≤ msec_diff prev now * 1000000 + 1000000 := by
  obtain ⟨hp0, hp1⟩ := hp
  obtain ⟨hn0, hn1⟩ := hn
  by_cases hs : prev.tv_sec < now.tv_sec
  · rw [msec_diff_next_sec prev now hs ⟨hp0, hp1⟩ ⟨hn0, hn1⟩]
    have : 0 < elapsed_nsec prev now := by unfold elapsed_nsec; omega
    omega
  · have hse : now.tv_sec = prev.tv_sec := by unfold elapsed_nsec at he; omega
    have hns : prev.tv_nsec ≤ now.tv_nsec := by unfold elapsed_nsec at he; omega
    rw [msec_diff_same_sec prev now hse hns]
    omega

/-- C13, as the code has it: for a normalized previous tick time and a normalized clock
reading not before it, `is_tick` compares the elapsed time in whole milliseconds: it
returns true only if at least `tick_msec + 1` milliseconds have elapsed, it returns true
whenever more than `tick_msec + 1` milliseconds have elapsed, and when both times fall in
the same second it returns true exactly when at least `tick_msec + 1` milliseconds have
elapsed.  When it returns true it sets `prev_tick` to `now` and changes nothing else;
when it returns false the state is unchanged. -/
theorem is_tick_whole_msec (g : Game) (now : timespec)
    (hp : normalized g.prev_tick) (hn : normalized now)
    (he : 0 ≤ elapsed_nsec g.prev_tick now) :
    ((is_tick g now).1 = true → (g.tick_msec + 1) * 1000000 ≤ elapsed_nsec g.prev_tick now)
      ∧ ((g.tick_msec + 1) * 1000000 < elapsed_nsec g.prev_tick now →
          (is_tick g now).1 = true)
      ∧ (now.tv_sec = g.prev_tick.tv_sec →
          ((is_tick g now).1 = true
            ↔ (g.tick_msec + 1) * 1000000 ≤ elapsed_nsec g.prev_tick now))
      ∧ ((is_tick g now).1 = true → (is_tick g now).2 = { g with prev_tick := now })
      ∧ ((is_tick g now).1 = false → (is_tick g now).2 = g) := by
  obtain ⟨hb1, hb2⟩ := msec_diff_bounds g.prev_tick now hp hn he
  rw [is_tick_eq]
  by_cases hc : msec_diff g.prev_tick now > g.tick_msec
  · simp only [hc, if_true, true_implies, implies_true, true_and, true_iff, and_true]
    refine ⟨by omega, fun _ => by omega, by simp⟩
  · simp only [hc, if_false, implies_true, and_true]
    refine ⟨by simp, fun h => by omega, fun hs => ?_, by simp⟩
    have hns : g.prev_tick.tv_nsec ≤ now.tv_nsec := by
      unfold elapsed_nsec at he
      omega
    have := msec_diff_same_sec g.prev_tick now hs hns
    simp only [Bool.false_eq_true, false_iff, not_le]
    omega

theorem is_tick_whole_msec_witness :
    normalized grid3.prev_tick ∧ normalized ⟨0, 121000000⟩
      ∧ 0 ≤ elapsed_nsec grid3.prev_tick ⟨0, 121000000⟩
      ∧ (is_tick grid3 ⟨0, 121000000⟩).1 = true
      ∧ (grid3.tick_msec + 1) * 1000000 ≤ elapsed_nsec grid3.prev_tick ⟨0, 121000000⟩
      ∧ (is_tick grid3 ⟨0, 121000000⟩).2 = { grid3 with prev_tick := ⟨0, 121000000⟩ } :=
  ⟨by decide, by decide, by decide, by decide,
    (is_tick_whole_msec grid3 ⟨0, 121000000⟩ (by decide) (by decide) (by decide)).1
      (by decide),
    (is_tick_whole_msec grid3 ⟨0, 121000000⟩ (by decide) (by decide)
      (by decide)).2.2.2.1 (by decide)⟩

/-- C13, counterexample: with `tick_msec = 120` and the previous tick at 0 s, the clock
reading 0 s 120500000 ns is 120.5 ms later, strictly more than `tick_msec` milliseconds,
and `is_tick` returns false. -/
theorem is_tick_misses_half_msec :
    normalized grid3.prev_tick ∧ normalized ⟨0, 120500000⟩
      ∧ grid3.tick_msec * 1000000 < elapsed_nsec grid3.prev_tick ⟨0, 120500000⟩
      ∧ is_tick grid3 ⟨0, 120500000⟩ = (false, grid3) :=
  ⟨by decide, by decide, by decide, by decide⟩

/-- C14: if `is_tick` returns true at the normalized time `t`, then `prev_tick` is `t`
afterwards, and a poll at any normalized time `t'` with `t ≤ t'` and `t' - t` at most
`tick_msec` milliseconds returns false and leaves the whole state, `prev_tick = t`
included, as it was. -/
theorem is_tick_once_per_window (g : Game) (t t' : timespec)
    (ht : normalized t) (ht' : normalized t')
    (htick : (is_tick g t).1 = true)
    (h0 : 0 ≤ elapsed_nsec t t') (h1 : elapsed_nsec t t' ≤ g.tick_msec * 1000000) :
    (is_tick g t).2.prev_tick = t
      ∧ is_tick (is_tick g t).2 t' = (false, (is_tick g t).2) := by
  have hg : (is_tick g t).2 = { g with prev_tick := t } := by
    rw [is_tick_eq] at htick ⊢
    by_cases hc : msec_diff g.prev_tick t > g.tick_msec
    · simp [hc]
    · simp [hc] at htick
  rw [hg]
  refine ⟨rfl, ?_⟩
  obtain ⟨hb1, _⟩ := msec_diff_bounds t t' ht ht' h0
  rw [is_tick_eq]
  simp only
  rw [if_neg (by omega)]

theorem is_tick_once_per_window_witness :
    normalized ⟨0, 121000000⟩ ∧ normalized ⟨0, 241000000⟩
      ∧ (is_tick grid3 ⟨0, 121000000⟩).1 = true
      ∧ 0 ≤ elapsed_nsec ⟨0, 121000000⟩ ⟨0, 241000000⟩
      ∧ elapsed_nsec ⟨0, 121000000⟩ ⟨0, 241000000⟩ ≤ grid3.tick_msec * 1000000
      ∧ (is_tick grid3 ⟨0, 121000000⟩).2.prev_tick = ⟨0, 121000000⟩
      ∧ is_tick (is_tick grid3 ⟨0, 121000000⟩).2 ⟨0, 241000000⟩
        = (false, (is_tick grid3 ⟨0, 121000000⟩).2) :=
  ⟨by decide, by decide, by decide, by decide, by decide,
    is_tick_once_per_window grid3 ⟨0, 121000000⟩ ⟨0, 241000000⟩ (by decide) (by decide)
      (by decide) (by decide) (by decide)⟩

/-- C19, at the failing input: from 10 s 0 ns to 11 s 0 ns exactly 1000 ms elapse, but
`is_tick` computes `msec_diff = 999`; with `tick_msec = 999` it therefore returns
false. -/
theorem msec_diff_second_boundary :
    normalized ⟨10, 0⟩ ∧ normalized ⟨11, 0⟩
      ∧ elapsed_nsec ⟨10, 0⟩ ⟨11, 0⟩ / 1000000 = 1000
      ∧ msec_diff ⟨10, 0⟩ ⟨11, 0⟩ = 999
      ∧ (is_tick { grid3 with tick_msec := 999, prev_tick := ⟨10, 0⟩ } ⟨11, 0⟩).1 = false :=
  ⟨by decide, by decide, by decide, by decide, by decide⟩

/-! ## The difficulty table -/

/-- C15: the tick interval stored by `init_game` is
`difficulty_msecs[max(0, min(11, difficulty))]`; difficulty 0 gives 300, difficulty 11
gives 20, which is the minimum of the table; every difficulty above 11 gives the interval
of 11 and every difficulty below 0 the interval of 0; and for `0 ≤ d1 < d2 ≤ 11` the
interval of `d2` is strictly smaller than the interval of `d1`. -/
theorem tick_interval_table :
    (∀ opts max_y max_x now g, init_game opts max_y max_x now = some g →
        interval opts.difficulty = some g.tick_msec)
      ∧ (∀ d, ∃ t, interval d = some t)
      ∧ interval 0 = some 300 ∧ interval 11 = some 20
      ∧ (∀ t ∈ difficulty_msecs, 20 ≤ t)
      ∧ (∀ d, 11 ≤ d → interval d = interval 11)
      ∧ (∀ d, d ≤ 0 → interval d = interval 0)
      ∧ (∀ d1 d2 t1 t2, 0 ≤ d1 → d1 < d2 → d2 ≤ 11 → interval d1 = some t1 →
          interval d2 = some t2 → t2 < t1) := by
  refine ⟨?_, difficulty_lookup, by decide, by decide, by decide, ?_, ?_, ?_⟩
  · intro opts max_y max_x now g h
    unfold init_game at h
    simp only at h
    split at h
    · exact absurd h (by simp)
    · rename_i t ht
      split at h
      · exact absurd h (by simp)
      · split at h
        · exact absurd h (by simp)
        · simp only [Option.some.injEq] at h
          rw [← h]
          exact ht
  · intro d hd
    have h : max 0 (min 11 d) = 11 := by omega
    unfold interval
    rw [h]
    rfl
  · intro d hd
    have h : max 0 (min 11 d) = 0 := by omega
    unfold interval
    rw [h]
    rfl
  · intro d1 d2 t1 t2 h0 h12 h11 e1 e2
    have hd1 : d1 ≤ 10 := by omega
    have hd2 : 1 ≤ d2 := by omega
    interval_cases d1 <;> interval_cases d2 <;>
      simp_all [interval, difficulty_msecs] <;> omega

theorem tick_interval_table_witness :
    init_game ⟨5⟩ 5 5 ⟨0, 0⟩ = some grid3 ∧ interval 5 = some grid3.tick_msec
      ∧ interval 3 = some 150 ∧ interval 7 = some 80 ∧ (80 : Int) < 150 :=
  ⟨by decide, tick_interval_table.1 ⟨5⟩ 5 5 ⟨0, 0⟩ grid3 (by decide), by decide, by decide,
    tick_interval_table.2.2.2.2.2.2.2 3 7 150 80 (by decide) (by decide) (by decide)
      (by decide) (by decide)⟩

/-! ## The cells of the initial field -/

theorem getElem?_desc (k : Nat) : ∀ i : Nat, i < k → (desc k)[i]? = some ((k : Int) - (i : Int)) := by
  induction k with
  | zero => intro i hi; omega
  | succ k ih =>
    intro i hi
    cases i with
    | zero => simp [desc]
    | succ j =>
      simp only [desc, List.getElem?_cons_succ]
      rw [ih j (by omega)]
      push_cast
      congr 1
      omega

theorem padded_cell (a b L p : Nat) (hp : p < a + L + b) :
    (List.replicate a (0 : Int) ++ (desc L ++ List.replicate b 0))[p]?
      = some (if a ≤ p ∧ p < a + L then (L : Int) - ((p : Int) - (a : Int)) else 0) := by
  by_cases h1 : p < a
  · rw [List.getElem?_append_left (by simpa using h1), if_neg (by omega)]
    simp [List.getElem?_replicate, h1]
  · rw [List.getElem?_append_right (by simpa using Nat.le_of_not_lt h1)]
    simp only [List.length_replicate]
    by_cases h2 : p - a < L
    · rw [List.getElem?_append_left (by simpa [length_desc] using h2), if_pos (by omega),
        getElem?_desc L (p - a) h2]
      congr 1
      omega
    · rw [List.getElem?_append_right (by simpa [length_desc] using Nat.le_of_not_lt h2),
        if_neg (by omega)]
      simp only [length_desc, List.getElem?_replicate]
      rw [if_pos (by omega)]

theorem init_game_spec (opts : Options) (max_y max_x : Int) (now : timespec)
    (hx : 1 ≤ max_x - 2) (hy : 1 ≤ max_y - 2) :
    ∃ g, init_game opts max_y max_x now = some g
      ∧ g.size_x = max_x - 2 ∧ g.size_y = max_y - 2
      ∧ g.snake_len = min 10 (max_x - 2) ∧ g.initial_snake_len = min 10 (max_x - 2)
      ∧ g.snake_pos = (max_y - 2) / 2 * (max_x - 2)
          + ((max_x - 2) / 2 - min 10 (max_x - 2) / 2)
      ∧ g.food_pos = max 0 (g.snake_pos - 1)
      ∧ ∀ p : Int, 0 ≤ p → p < (max_x - 2) * (max_y - 2) →
          readField g.field p
            = some (if g.snake_pos ≤ p ∧ p < g.snake_pos + g.snake_len
                then g.snake_len - (p - g.snake_pos) else 0) := by
  obtain ⟨tick, a, b, ha, hab, heq⟩ := init_game_eq opts max_y max_x now hx hy
  refine ⟨_, heq, rfl, rfl, rfl, rfl, ha, rfl, ?_⟩
  intro p hp0 hp1
  generalize max_x - 2 = sx at *
  generalize max_y - 2 = sy at *
  have hL0 : 0 ≤ min 10 sx := by omega
  simp only [readField, hp0, if_true]
  rw [padded_cell a b (min 10 sx).toNat p.toNat (by omega)]
  by_cases hc : (a : Int) ≤ p ∧ p < (a : Int) + min 10 sx
  · rw [if_pos hc, if_pos (by omega)]
    congr 1
    omega
  · rw [if_neg hc, if_neg (by omega)]

theorem init_positives (opts : Options) (max_y max_x : Int) (now : timespec) (g : Game)
    (hx : 1 ≤ max_x - 2) (hy : 1 ≤ max_y - 2)
    (h : init_game opts max_y max_x now = some g) :
    (positives g.field : Int) = g.snake_len := by
  obtain ⟨tick, a, b, _, _, heq⟩ := init_game_eq opts max_y max_x now hx hy
  rw [heq] at h
  simp only [Option.some.injEq] at h
  subst h
  simp only
  have hL0 : 0 ≤ min 10 (max_x - 2) := by omega
  have := countGe_desc (min 10 (max_x - 2)).toNat 1 (by omega) (by omega)
  rw [positives_eq_countGe, countGe_padded 1 (by omega)]
  omega

theorem step_switch_in_bounds (g : Game) (pos : Int) (hx : 1 ≤ g.size_x)
    (hy : 1 ≤ g.size_y) (h0 : 0 ≤ g.snake_pos) (h1 : g.snake_pos < g.size_x * g.size_y)
    (hsw : step_switch g (g.size_x * g.size_y) = some (some pos)) :
    0 ≤ pos ∧ pos < g.size_x * g.size_y := by
  have hn : 0 ≤ g.size_x * g.size_y := by omega
  have hwf : WellFormed { g with field := List.replicate (g.size_x * g.size_y).toNat 0 } :=
    ⟨hx, hy, by simp only [List.length_replicate]; omega, h0, h1⟩
  by_cases hb : at_border { g with field := List.replicate (g.size_x * g.size_y).toNat 0 }
  · have hsn : step_switch g (g.size_x * g.size_y) = some none :=
      step_switch_border _ hx h0 hb
    rw [hsw] at hsn
    exact absurd hsn (by simp)
  · obtain ⟨h2, h3, h4⟩ := step_switch_free _ hwf hb
    have h2g : step_switch g (g.size_x * g.size_y)
        = some (some (candidate
            { g with field := List.replicate (g.size_x * g.size_y).toNat 0 })) := h2
    rw [hsw] at h2g
    simp only [Option.some.injEq] at h2g
    rw [h2g]
    exact ⟨h3, h4⟩

/-! ## Properties of the initial state and of the head index -/

/-- C11: on a grid of at least one cell `init_game` returns a state with
`0 ≤ snake_pos < size_x*size_y`; a step that returns `GameRunning` from a state with this
bound keeps the grid size and yields a state with the bound again; hence in every state
of a run the head index is in bounds, and the read and the write of `step` at the moved
`snake_pos` are inside the field. -/
theorem head_stays_in_bounds :
    (∀ opts max_y max_x now, 1 ≤ max_x - 2 → 1 ≤ max_y - 2 →
        ∃ g, init_game opts max_y max_x now = some g
          ∧ g.size_x = max_x - 2 ∧ g.size_y = max_y - 2
          ∧ 0 ≤ g.snake_pos ∧ g.snake_pos < g.size_x * g.size_y)
      ∧ (∀ g rnd g', 1 ≤ g.size_x → 1 ≤ g.size_y → 0 ≤ g.snake_pos →
          g.snake_pos < g.size_x * g.size_y → step g rnd = some (GameRunning, g') →
          g'.size_x = g.size_x ∧ g'.size_y = g.size_y
            ∧ 0 ≤ g'.snake_pos ∧ g'.snake_pos < g'.size_x * g'.size_y)
      ∧ (∀ n g, Reach n g →
          0 ≤ g.snake_pos ∧ g.snake_pos < g.size_x * g.size_y
            ∧ ∀ pos, step_switch g (g.size_x * g.size_y) = some (some pos) →
                (∃ v, readField g.field pos = some v)
                  ∧ ∃ f, writeField g.field pos g.snake_len = some f) := by
  refine ⟨?_, ?_, ?_⟩
  · intro opts max_y max_x now hx hy
    obtain ⟨g, hg, h1, h2, _⟩ := init_game_spec opts max_y max_x now hx hy
    have hi := inv_init opts max_y max_x now g hx hy hg
    exact ⟨g, hg, h1, h2, hi.wf.pos_lo, hi.wf.pos_hi⟩
  · intro g rnd g' hx hy h0 h1 hs
    obtain ⟨pos, v, field1, hsw, _, _, _, hcase⟩ := step_running_inv g g' rnd hs
    obtain ⟨hp0, hp1⟩ := step_switch_in_bounds g pos hx hy h0 h1 hsw
    rcases hcase with ⟨_, _, _, hg'⟩ | ⟨_, _, _, _, hg'⟩ <;> rw [hg'] <;>
      exact ⟨rfl, rfl, hp0, hp1⟩
  · intro n g hr
    have hi := reach_inv n g hr
    refine ⟨hi.wf.pos_lo, hi.wf.pos_hi, ?_⟩
    intro pos hsw
    obtain ⟨hp0, hp1⟩ := step_switch_in_bounds g pos hi.wf.size_x_pos hi.wf.size_y_pos
      hi.wf.pos_lo hi.wf.pos_hi hsw
    have hlen := hi.wf.field_len
    obtain ⟨v, hv, _⟩ := readField_inb g.field pos hp0 (by omega)
    exact ⟨⟨v, hv⟩, _, writeField_inb g.field pos g.snake_len hp0 (by omega)⟩

theorem head_stays_in_bounds_witness :
    (∃ g, init_game ⟨5⟩ 5 5 ⟨0, 0⟩ = some g
        ∧ g.size_x = 5 - 2 ∧ g.size_y = 5 - 2
        ∧ 0 ≤ g.snake_pos ∧ g.snake_pos < g.size_x * g.size_y)
      ∧ (grid3_one.size_x = (latch grid3 Up).size_x
        ∧ grid3_one.size_y = (latch grid3 Up).size_y
        ∧ 0 ≤ grid3_one.snake_pos
        ∧ grid3_one.snake_pos < grid3_one.size_x * grid3_one.size_y)
      ∧ 0 ≤ grid3_three.snake_pos
      ∧ grid3_three.snake_pos < grid3_three.size_x * grid3_three.size_y :=
  ⟨head_stays_in_bounds.1 ⟨5⟩ 5 5 ⟨0, 0⟩ (by decide) (by decide),
    head_stays_in_bounds.2.1 (latch grid3 Up) 0 grid3_one (by decide) (by decide)
      (by decide) (by decide) (by decide),
    (head_stays_in_bounds.2.2 3 grid3_three reach_grid3_three).1,
    (head_stays_in_bounds.2.2 3 grid3_three reach_grid3_three).2.1⟩

/-- C12, as the code has it: the initial snake is painted walking forward from the head
in row-major order: after `init_game` with head position `h` and length `L`, the cells
`h, h+1, ..., h+L-1` are on the grid and hold `L, L-1, ..., 1`, and every other cell
holds 0. -/
theorem init_paints_forward (opts : Options) (max_y max_x : Int) (now : timespec)
    (hx : 1 ≤ max_x - 2) (hy : 1 ≤ max_y - 2) :
    ∃ g, init_game opts max_y max_x now = some g
      ∧ 0 ≤ g.snake_pos ∧ g.snake_pos + g.snake_len ≤ g.size_x * g.size_y
      ∧ ∀ p : Int, 0 ≤ p → p < g.size_x * g.size_y →
          readField g.field p
            = some (if g.snake_pos ≤ p ∧ p < g.snake_pos + g.snake_len
                then g.snake_len - (p - g.snake_pos) else 0) := by
  obtain ⟨g, hg, h1, h2, h3, _, h5, _, h7⟩ := init_game_spec opts max_y max_x now hx hy
  obtain ⟨hb0, hb1⟩ := init_pos_bounds (max_x - 2) (max_y - 2) hx hy
  refine ⟨g, hg, by omega, by rw [h5, h3, h1, h2]; exact hb1, ?_⟩
  intro p hp0 hp1
  rw [h1, h2] at hp1
  exact h7 p hp0 hp1

theorem init_paints_forward_witness :
    (1 : Int) ≤ 5 - 2 ∧ (1 : Int) ≤ 10 - 2
      ∧ ∃ g, init_game ⟨5⟩ 10 5 ⟨0, 0⟩ = some g
        ∧ 0 ≤ g.snake_pos ∧ g.snake_pos + g.snake_len ≤ g.size_x * g.size_y
        ∧ ∀ p : Int, 0 ≤ p → p < g.size_x * g.size_y →
            readField g.field p
              = some (if g.snake_pos ≤ p ∧ p < g.snake_pos + g.snake_len
                  then g.snake_len - (p - g.snake_pos) else 0) :=
  ⟨by decide, by decide, init_paints_forward ⟨5⟩ 10 5 ⟨0, 0⟩ (by decide) (by decide)⟩

/-- C12, counterexample: on a grid 3 wide and 8 high `init_game` gives length 3 with the
head at cell 12; the cells 11 and 10 hold 0 and the values 2 and 1 are at the cells 13
and 14. -/
theorem init_paints_not_backward :
    init_game ⟨5⟩ 10 5 ⟨0, 0⟩ = some grid3x8
      ∧ grid3x8.snake_pos = 12 ∧ grid3x8.snake_len = 3
      ∧ readField grid3x8.field 12 = some 3
      ∧ readField grid3x8.field 11 = some 0 ∧ readField grid3x8.field 10 = some 0
      ∧ readField grid3x8.field 13 = some 2 ∧ readField grid3x8.field 14 = some 1 :=
  ⟨by decide, by decide, by decide, by decide, by decide, by decide, by decide, by decide⟩

/-- C20: on a grid of at least one cell `init_game` returns (no write of the seeding loop
leaves the field), with `snake_len = min(10, size_x)` and
`snake_pos = (size_y/2)*size_x + (size_x/2 - snake_len/2)`; the seeded cells
`snake_pos .. snake_pos+snake_len-1` have indices in `[0, size_x*size_y)`, all lie in row
`size_y/2` and hold a positive value, and exactly `snake_len` cells of the initial field
are positive. -/
theorem seeding_stays_in_row (opts : Options) (max_y max_x : Int) (now : timespec)
    (hx : 1 ≤ max_x - 2) (hy : 1 ≤ max_y - 2) :
    ∃ g, init_game opts max_y max_x now = some g
      ∧ g.snake_len = min 10 g.size_x
      ∧ g.snake_pos = g.size_y / 2 * g.size_x + (g.size_x / 2 - g.snake_len / 2)
      ∧ 0 ≤ g.snake_pos ∧ g.snake_pos + g.snake_len ≤ g.size_x * g.size_y
      ∧ (∀ p : Int, g.snake_pos ≤ p → p < g.snake_pos + g.snake_len →
          p / g.size_x = g.size_y / 2 ∧ ∃ v, readField g.field p = some v ∧ 0 < v)
      ∧ (positives g.field : Int) = g.snake_len := by
  obtain ⟨g, hg, h1, h2, h3, _, h5, _, h7⟩ := init_game_spec opts max_y max_x now hx hy
  obtain ⟨hb0, hb1⟩ := init_pos_bounds (max_x - 2) (max_y - 2) hx hy
  have hpos := init_positives opts max_y max_x now g hx hy hg
  rw [← h1, ← h2] at hb0 hb1 h5 h7
  rw [← h1] at h3 hx
  rw [← h2] at hy
  rw [← h3] at hb0 hb1 h5
  rw [← h5] at hb0 hb1
  refine ⟨g, hg, h3, h5, hb0, hb1, ?_, hpos⟩
  intro p hp0 hp1
  constructor
  · have hq : 0 ≤ g.size_y / 2 * g.size_x := mul_nonneg (by omega) (by omega)
    have := (Int.ediv_emod_unique (a := p) (b := g.size_x) (q := g.size_y / 2)
      (r := p - g.size_y / 2 * g.size_x) (by omega)).mpr ⟨by ring, by omega, by omega⟩
    exact this.1
  · refine ⟨_, h7 p (by omega) (by omega), ?_⟩
    rw [if_pos ⟨hp0, hp1⟩]
    omega

theorem seeding_stays_in_row_witness :
    (1 : Int) ≤ 24 - 2 ∧ (1 : Int) ≤ 12 - 2
      ∧ ∃ g, init_game ⟨5⟩ 12 24 ⟨0, 0⟩ = some g
        ∧ g.snake_len = min 10 g.size_x
        ∧ g.snake_pos = g.size_y / 2 * g.size_x + (g.size_x / 2 - g.snake_len / 2)
        ∧ 0 ≤ g.snake_pos ∧ g.snake_pos + g.snake_len ≤ g.size_x * g.size_y
        ∧ (∀ p : Int, g.snake_pos ≤ p → p < g.snake_pos + g.snake_len →
            p / g.size_x = g.size_y / 2 ∧ ∃ v, readField g.field p = some v ∧ 0 < v)
        ∧ (positives g.field : Int) = g.snake_len :=
  ⟨by decide, by decide, seeding_stays_in_row ⟨5⟩ 12 24 ⟨0, 0⟩ (by decide) (by decide)⟩

/-! ## What a step leaves alone -/

theorem step_running_frame (g g' : Game) (rnd : Nat)
    (hs : step g rnd = some (GameRunning, g')) :
    g'.size_x = g.size_x ∧ g'.size_y = g.size_y
      ∧ g'.initial_snake_len = g.initial_snake_len
      ∧ (g'.snake_pos ≠ g.food_pos → g'.snake_len = g.snake_len ∧ g'.food_pos = g.food_pos)
      ∧ (g'.snake_pos = g.food_pos → g'.snake_len = g.snake_len + 1) := by
  obtain ⟨pos, v, field1, _, _, _, _, hcase⟩ := step_running_inv g g' rnd hs
  rcases hcase with ⟨hf, _, _, hg'⟩ | ⟨hf, _, _, _, hg'⟩
  · rw [hg']
    exact ⟨rfl, rfl, rfl, fun _ => ⟨rfl, rfl⟩, fun h => absurd h hf⟩
  · rw [hg']
    exact ⟨rfl, rfl, rfl, fun h => absurd hf h, fun _ => rfl⟩

theorem step_over_frame (g g' : Game) (rnd : Nat)
    (hs : step g rnd = some (GameOver, g')) :
    g'.snake_len = g.snake_len ∧ g'.initial_snake_len = g.initial_snake_len := by
  unfold step at hs
  simp only at hs
  split at hs
  · exact absurd hs (by simp)
  · simp only [Option.some.injEq, Prod.mk.injEq, true_and] at hs
    rw [← hs]
    exact ⟨rfl, rfl⟩
  · split at hs
    · exact absurd hs (by simp)
    · split at hs
      · simp only [Option.some.injEq, Prod.mk.injEq, true_and] at hs
        rw [← hs]
        exact ⟨rfl, rfl⟩
      · split at hs
        · exact absurd hs (by simp)
        · split at hs
          · split at hs
            · exact absurd hs (by simp)
            · split at hs
              · exact absurd hs (by simp)
              · exact absurd hs (by simp)
          · split at hs
            · exact absurd hs (by simp)
            · exact absurd hs (by simp)

/-! ## The food cell -/

theorem stuck_no_step (g g' : Game) (rnd : Nat) (h : WellFormed g) (hst : Stuck g)
    (hs : step g rnd = some (GameRunning, g')) : False := by
  obtain ⟨hnb, _, _, v, _, hg, _, hv, _⟩ := step_running_wf g g' rnd h hs
  obtain ⟨hy, hp, hcell⟩ := hst
  have hx := h.size_x_pos
  unfold at_border at hnb
  unfold candidate at hg
  cases hm : g.move <;> simp only [hm, hp, hy] at hnb hg
  · omega
  · simp at hnb
  · simp at hnb
  · rcases hcell with h1 | ⟨w, hw, hw0⟩
    · rw [h1] at hnb
      simp at hnb
    · simp only [zero_add] at hg
      have h1 : (1 : Int).toNat = 1 := rfl
      rw [h1, hw] at hg
      simp only [Option.some.injEq] at hg
      omega

theorem init_food (opts : Options) (max_y max_x : Int) (now : timespec) (g : Game)
    (hx : 1 ≤ max_x - 2) (hy : 1 ≤ max_y - 2)
    (h : init_game opts max_y max_x now = some g) :
    0 ≤ g.food_pos ∧ g.food_pos < g.size_x * g.size_y
      ∧ ((1 ≤ g.snake_pos ∧ readField g.field g.food_pos = some 0)
        ∨ (g.snake_pos = 0 ∧ g.food_pos = 0
            ∧ readField g.field g.food_pos = some g.snake_len ∧ Stuck g)) := by
  obtain ⟨g2, hg2, h1, h2, h3, _, h5, h6, h7⟩ := init_game_spec opts max_y max_x now hx hy
  rw [h] at hg2
  simp only [Option.some.injEq] at hg2
  subst hg2
  have hi := inv_init opts max_y max_x now g hx hy h
  have hp0 := hi.wf.pos_lo
  have hp1 := hi.wf.pos_hi
  rw [← h1] at h7 hx h5 h3
  rw [← h2] at h7 hy h5
  by_cases hpos : 1 ≤ g.snake_pos
  · refine ⟨by omega, by omega, Or.inl ⟨hpos, ?_⟩⟩
    rw [h7 g.food_pos (by omega) (by omega), if_neg (by omega)]
  · have hz : g.snake_pos = 0 := by omega
    have hf : g.food_pos = 0 := by omega
    have hq : 0 ≤ g.size_y / 2 * g.size_x := mul_nonneg (by omega) (by omega)
    have hq0 : g.size_y / 2 * g.size_x = 0 := by omega
    have hy1 : g.size_y = 1 := by
      rcases mul_eq_zero.mp hq0 with h0 | h0 <;> omega
    refine ⟨by omega, by omega, Or.inr ⟨hz, hf, ?_, hy1, hz, ?_⟩⟩
    · rw [hf, h7 0 (by omega) (by omega), if_pos (by omega)]
      congr 1
      omega
    · by_cases hx1 : g.size_x = 1
      · exact Or.inl hx1
      · right
        have hN : 1 < g.size_x * g.size_y := by rw [hy1]; omega
        have hc := h7 1 (by omega) hN
        rw [if_pos (by omega)] at hc
        refine ⟨g.snake_len - (1 - g.snake_pos), ?_, by omega⟩
        simpa [readField] using hc

theorem food_inv (n : Nat) (g : Game) (h : Reach n g) :
    (0 ≤ g.food_pos ∧ g.food_pos < g.size_x * g.size_y)
      ∧ (readField g.field g.food_pos = some 0 ∨ Stuck g)
      ∧ (1 ≤ n → readField g.field g.food_pos = some 0) := by
  induction h with
  | init opts max_y max_x now g hx hy hi =>
    obtain ⟨h0, h1, hc⟩ := init_food opts max_y max_x now g hx hy hi
    refine ⟨⟨h0, h1⟩, ?_, fun hn => by omega⟩
    rcases hc with ⟨_, h2⟩ | ⟨_, _, _, h2⟩
    · exact Or.inl h2
    · exact Or.inr h2
  | latch n g d _ ih => exact ih
  | tick n g now _ ih =>
    rcases is_tick_snd g now with h1 | h1 <;> rw [h1] <;> exact ih
  | step n g g' rnd hr hs ih =>
    have hi := reach_inv n g hr
    have hi' := inv_step g g' rnd hi hs
    obtain ⟨⟨hf0, hf1⟩, hc, _⟩ := ih
    have hok : readField g.field g.food_pos = some 0 := by
      rcases hc with h1 | h1
      · exact h1
      · exact absurd hs (fun hs => stuck_no_step g g' rnd hi.wf h1 hs)
    have key : (0 ≤ g'.food_pos ∧ g'.food_pos < g'.size_x * g'.size_y)
        ∧ readField g'.field g'.food_pos = some 0 := by
      by_cases hfood : g'.snake_pos = g.food_pos
      · obtain ⟨_, _, _, _, _, q, hq, hqlt, hq0, _, _⟩ :=
          food_after_eat g g' rnd hi hs hfood
        have hlen := hi'.wf.field_len
        refine ⟨⟨by omega, by omega⟩, ?_⟩
        rw [hq]
        simpa [readField] using hq0
      · obtain ⟨_, hc0, _, v, _, _, _, _, hcase⟩ := step_running_wf g g' rnd hi.wf hs
        rcases hcase with ⟨hne, hg'⟩ | ⟨he, _, _, _, hg'⟩
        · rw [hg']
          refine ⟨⟨hf0, hf1⟩, ?_⟩
          have hget : g.field[g.food_pos.toNat]? = some 0 := by
            simpa [readField, hf0] using hok
          have hidx : (candidate g).toNat ≠ g.food_pos.toNat := by omega
          simp only [readField, hf0, if_true, List.getElem?_map, List.getElem?_set,
            if_neg hidx, hget, Option.map_some', decay_cell]
          simp
        · rw [hg'] at hfood
          exact absurd he hfood
    exact ⟨key.1, Or.inl key.2, fun _ => key.2⟩

/-- C16, as the code has it: on a grid of at least one cell the food position set by
`init_game` is an in-bounds cell; it holds 0 in the initial state when the initial
`snake_pos` is at least 1 (then `food_pos = snake_pos - 1`), while for `snake_pos = 0`
the clamp `max(0, snake_pos - 1)` puts it on the head cell, which holds `snake_len`.
In every state of a run `food_pos` is in bounds, and in every state reached by one or
more steps that returned `GameRunning` the cell at `food_pos` holds 0. -/
theorem food_cell_is_empty :
    (∀ opts max_y max_x now, 1 ≤ max_x - 2 → 1 ≤ max_y - 2 →
        ∃ g, init_game opts max_y max_x now = some g
          ∧ 0 ≤ g.food_pos ∧ g.food_pos < g.size_x * g.size_y
          ∧ (1 ≤ g.snake_pos →
              g.food_pos = g.snake_pos - 1 ∧ readField g.field g.food_pos = some 0)
          ∧ (g.snake_pos = 0 →
              g.food_pos = g.snake_pos ∧ readField g.field g.food_pos = some g.snake_len))
      ∧ (∀ n g, Reach n g → 0 ≤ g.food_pos ∧ g.food_pos < g.size_x * g.size_y)
      ∧ (∀ n g, Reach (n + 1) g → readField g.field g.food_pos = some 0)
      ∧ (∀ g, Reach 0 g → 1 ≤ g.snake_pos → readField g.field g.food_pos = some 0) := by
  refine ⟨?_, fun n g h => (food_inv n g h).1, fun n g h => (food_inv (n + 1) g h).2.2 (by omega),
    ?_⟩
  · intro opts max_y max_x now hx hy
    obtain ⟨g, hg, _, _, _, _, _, h6, _⟩ := init_game_spec opts max_y max_x now hx hy
    obtain ⟨h0, h1, hc⟩ := init_food opts max_y max_x now g hx hy hg
    refine ⟨g, hg, h0, h1, ?_, ?_⟩
    · intro hp
      rcases hc with ⟨_, h2⟩ | ⟨hz, _⟩
      · exact ⟨by omega, h2⟩
      · omega
    · intro hp
      rcases hc with ⟨h2, _⟩ | ⟨_, hf, h2, _⟩
      · omega
      · exact ⟨by omega, h2⟩
  · intro g h hp
    rcases (food_inv 0 g h).2.1 with h1 | h1
    · exact h1
    · have := h1.2.1
      omega

theorem food_cell_is_empty_witness :
    (∃ g, init_game ⟨5⟩ 5 5 ⟨0, 0⟩ = some g
        ∧ 0 ≤ g.food_pos ∧ g.food_pos < g.size_x * g.size_y
        ∧ (1 ≤ g.snake_pos →
            g.food_pos = g.snake_pos - 1 ∧ readField g.field g.food_pos = some 0)
        ∧ (g.snake_pos = 0 →
            g.food_pos = g.snake_pos ∧ readField g.field g.food_pos = some g.snake_len))
      ∧ (0 ≤ grid3_three.food_pos
        ∧ grid3_three.food_pos < grid3_three.size_x * grid3_three.size_y)
      ∧ readField grid3_three.field grid3_three.food_pos = some 0
      ∧ readField grid3.field grid3.food_pos = some 0 :=
  ⟨food_cell_is_empty.1 ⟨5⟩ 5 5 ⟨0, 0⟩ (by decide) (by decide),
    food_cell_is_empty.2.1 3 grid3_three reach_grid3_three,
    food_cell_is_empty.2.2.1 2 grid3_three reach_grid3_three,
    food_cell_is_empty.2.2.2 grid3 reach_grid3 (by decide)⟩

/-- C16, counterexample: on a grid 10 wide and 1 high (a terminal of 3 rows and 12
columns) `init_game` puts the food at cell 0, which is the head cell and holds 10. -/
theorem init_food_on_head :
    init_game ⟨5⟩ 3 12 ⟨0, 0⟩ = some grid10x1
      ∧ grid10x1.size_x = 10 ∧ grid10x1.size_y = 1
      ∧ grid10x1.food_pos = grid10x1.snake_pos
      ∧ readField grid10x1.field grid10x1.food_pos = some 10 :=
  ⟨by decide, by decide, by decide, by decide, by decide⟩

/-! ## The score -/

theorem run_grid3_two : RunAte 0 grid3_two :=
  RunAte.plain 0 (latch grid3_one Right) grid3_two 0
    (RunAte.latch 0 grid3_one Right
      (RunAte.plain 0 (latch grid3 Up) grid3_one 0
        (RunAte.latch 0 grid3 Up
          (RunAte.init ⟨5⟩ 5 5 ⟨0, 0⟩ grid3 (by decide) (by decide) (by decide)))
        (by decide) (by decide)))
    (by decide) (by decide)

theorem run_grid3_ate : RunAte 1 grid3_ate :=
  RunAte.eat 0 (latch grid3_two Right) grid3_ate 7
    (RunAte.latch 0 grid3_two Right run_grid3_two) (by decide) (by decide)

theorem run_len (k : Nat) (g : Game) (h : RunAte k g) :
    g.snake_len = g.initial_snake_len + (k : Int) := by
  induction h with
  | init opts max_y max_x now g hx hy hi =>
    obtain ⟨g2, hg2, _, _, h3, h4, _⟩ := init_game_spec opts max_y max_x now hx hy
    rw [hi] at hg2
    simp only [Option.some.injEq] at hg2
    subst hg2
    rw [h3, h4]
    simp
  | latch k g d _ ih => exact ih
  | tick k g now _ ih =>
    rcases is_tick_snd g now with h1 | h1 <;> rw [h1] <;> exact ih
  | plain k g g' rnd _ hs hne ih =>
    obtain ⟨_, _, h3, h4, _⟩ := step_running_frame g g' rnd hs
    rw [(h4 hne).1, h3]
    exact ih
  | eat k g g' rnd _ hs he ih =>
    obtain ⟨_, _, h3, _, h5⟩ := step_running_frame g g' rnd hs
    rw [h5 he, h3, ih]
    push_cast
    omega
  | over k g g' rnd _ hs ih =>
    obtain ⟨h1, h2⟩ := step_over_frame g g' rnd hs
    rw [h1, h2]
    exact ih

/-- C17: `game_score` returns `snake_len - initial_snake_len - 1`; a step that returns
`GameRunning` with the head on the food increments `snake_len` by exactly 1, and every
other step (`GameRunning` without food, or `GameOver`) leaves `snake_len` as it was;
hence after a run from `init_game` in which exactly `k` steps ate food,
`snake_len = initial_snake_len + k ≥ initial_snake_len` and the score is `k - 1`. -/
theorem score_counts_food :
    (∀ g, game_score g = g.snake_len - g.initial_snake_len - 1)
      ∧ (∀ g rnd g', step g rnd = some (GameRunning, g') → g'.snake_pos = g.food_pos →
          g'.snake_len = g.snake_len + 1)
      ∧ (∀ g rnd g', step g rnd = some (GameRunning, g') → g'.snake_pos ≠ g.food_pos →
          g'.snake_len = g.snake_len)
      ∧ (∀ g rnd g', step g rnd = some (GameOver, g') → g'.snake_len = g.snake_len)
      ∧ (∀ k g, RunAte k g →
          g.snake_len = g.initial_snake_len + (k : Int)
            ∧ g.initial_snake_len ≤ g.snake_len
            ∧ game_score g = (k : Int) - 1) := by
  refine ⟨fun g => rfl, ?_, ?_, ?_, ?_⟩
  · intro g rnd g' hs he
    exact (step_running_frame g g' rnd hs).2.2.2.2 he
  · intro g rnd g' hs hne
    exact ((step_running_frame g g' rnd hs).2.2.2.1 hne).1
  · intro g rnd g' hs
    exact (step_over_frame g g' rnd hs).1
  · intro k g h
    have := run_len k g h
    unfold game_score
    refine ⟨this, by omega, by omega⟩

theorem score_counts_food_witness :
    RunAte 1 grid3_ate
      ∧ grid3_ate.snake_len = grid3_ate.initial_snake_len + ((1 : Nat) : Int)
      ∧ grid3_ate.initial_snake_len ≤ grid3_ate.snake_len
      ∧ game_score grid3_ate = ((1 : Nat) : Int) - 1
      ∧ grid3_ate.snake_len = (latch grid3_two Right).snake_len + 1 :=
  ⟨run_grid3_ate, (score_counts_food.2.2.2.2 1 grid3_ate run_grid3_ate).1,
    (score_counts_food.2.2.2.2 1 grid3_ate run_grid3_ate).2.1,
    (score_counts_food.2.2.2.2 1 grid3_ate run_grid3_ate).2.2,
    score_counts_food.2.1 (latch grid3_two Right) 7 grid3_ate (by decide) (by decide)⟩

/-! ## Room for the food -/

/-- C18: in every state of a run every field value is `≥ 0` and the number of cells with
value `> 0` is `snake_len` or `snake_len - 1`; consequently, after a step that returns
`GameRunning` with the head on the food, the field (which is the field after the head
write) has at least `size_x*size_y - snake_len` cells with value 0 for the incremented
`snake_len`, and the scan index `r = rand() % (size_x*size_y - snake_len)` is smaller
than the number of cells with value 0. -/
theorem run_field_counts (n : Nat) (g : Game) (h : Reach n g) :
    (∀ v ∈ g.field, 0 ≤ v)
      ∧ ((positives g.field : Int) = g.snake_len
        ∨ (positives g.field : Int) = g.snake_len - 1)
      ∧ ∀ rnd g', step g rnd = some (GameRunning, g') → g'.snake_pos = g.food_pos →
          writeField g.field g'.snake_pos g.snake_len = some g'.field
            ∧ g.size_x * g.size_y - g'.snake_len ≤ (zeros g'.field : Int)
            ∧ Int.tmod (rnd : Int) (g.size_x * g.size_y - g'.snake_len)
                < (zeros g'.field : Int) := by
  have hi := reach_inv n g h
  have h1 := hi.upper 1 (by omega) hi.len_pos
  have h2 := hi.lower 1 (by omega) hi.len_pos
  refine ⟨hi.nonneg, by rw [positives_eq_countGe]; omega, ?_⟩
  intro rnd g' hs hfood
  have hi' := inv_step g g' rnd hi hs
  obtain ⟨hsx, hsy, _⟩ := step_running_frame g g' rnd hs
  obtain ⟨_, hw, _, _, hr, _⟩ := food_after_eat g g' rnd hi hs hfood
  have hz := zeros_add_positives g'.field hi'.nonneg
  have hu := hi'.upper 1 (by omega) hi'.len_pos
  have hlen := hi'.wf.field_len
  rw [hsx, hsy] at hlen
  rw [← positives_eq_countGe] at hu
  unfold zeros
  refine ⟨hw, by omega, by omega⟩

theorem run_field_counts_witness :
    Reach 2 (latch grid3_two Right)
      ∧ (∀ v ∈ (latch grid3_two Right).field, 0 ≤ v)
      ∧ ((positives (latch grid3_two Right).field : Int) = (latch grid3_two Right).snake_len
        ∨ (positives (latch grid3_two Right).field : Int)
            = (latch grid3_two Right).snake_len - 1)
      ∧ step (latch grid3_two Right) 7 = some (GameRunning, grid3_ate)
      ∧ Int.tmod ((7 : Nat) : Int)
          ((latch grid3_two Right).size_x * (latch grid3_two Right).size_y
            - grid3_ate.snake_len) < (zeros grid3_ate.field : Int) :=
  ⟨Reach.latch 2 grid3_two Right reach_grid3_two,
    (run_field_counts 2 (latch grid3_two Right)
      (Reach.latch 2 grid3_two Right reach_grid3_two)).1,
    (run_field_counts 2 (latch grid3_two Right)
      (Reach.latch 2 grid3_two Right reach_grid3_two)).2.1,
    by decide,
    ((run_field_counts 2 (latch grid3_two Right)
      (Reach.latch 2 grid3_two Right reach_grid3_two)).2.2 7 grid3_ate (by decide)
      (by decide)).2.2⟩

end Snake
